import Mathlib

/-!
Verification of the anydrop rendezvous server core (`src/server.ts`).

The development shallowly embeds the server's state and event handlers:
JS `Map`s become association lists with `Map`-faithful get/set/delete,
JS `Set`s become duplicate-free insertion-ordered lists, `Date.now()`
becomes an explicit `now : Nat` argument on the events that read it, and
`io.to(id).emit(...)` becomes a delivery that happens exactly when `id`
is a currently connected socket (socket.io delivers to the room named by
a socket id exactly while that socket is connected).
-/

namespace AnyDrop

/-! ## JS string primitives used by the classifier -/

/-- Embedding of `String.prototype.split(sep)` at the character level:
accumulator-based splitting on a one-character separator. -/
def splitAux (sep : Char) : List Char → List Char → List (List Char)
  | [], acc => [acc.reverse]
  | c :: cs, acc =>
    if c = sep then acc.reverse :: splitAux sep cs []
    else splitAux sep cs (c :: acc)

/-- Embedding of JS `ip.split(sep)` (string-valued). -/
def jsSplit (sep : Char) (s : String) : List String :=
  (splitAux sep s.data []).map String.mk

/-- Embedding of `Array.prototype.join(sep)` at the character level. -/
def jsJoinL (sep : Char) : List (List Char) → List Char
  | [] => []
  | [x] => x
  | x :: xs => x ++ sep :: jsJoinL sep xs

/-- Embedding of JS `parts.join(sep)`. -/
def jsJoin (sep : Char) (parts : List String) : String :=
  String.mk (jsJoinL sep (parts.map String.data))

/-- Character-level anchored-prefix test (embeds a `^lit` regex test). -/
def listPre : List Char → List Char → Bool
  | [], _ => true
  | _ :: _, [] => false
  | c :: cs, d :: ds => c = d && listPre cs ds

/-- String-level anchored-prefix test. -/
def strHasPre (p s : String) : Bool := listPre p.data s.data

/-! ## The network classifier (`isPrivateIP`, `getNetworkGroup`) -/

/-- Embedding of the regex `^172\.(1[6-9]|2[0-9]|3[0-1])\.` from
`isPrivateIP`: the alternation enumerates the second octets 16 to 31. -/
def is172Private (ip : String) : Bool :=
  strHasPre "172.16." ip || strHasPre "172.17." ip || strHasPre "172.18." ip ||
  strHasPre "172.19." ip || strHasPre "172.20." ip || strHasPre "172.21." ip ||
  strHasPre "172.22." ip || strHasPre "172.23." ip || strHasPre "172.24." ip ||
  strHasPre "172.25." ip || strHasPre "172.26." ip || strHasPre "172.27." ip ||
  strHasPre "172.28." ip || strHasPre "172.29." ip || strHasPre "172.30." ip ||
  strHasPre "172.31." ip

/-- `isPrivateIP(ip)` from the source: the three RFC1918 regex tests. -/
def isPrivateIP (ip : String) : Bool :=
  strHasPre "10." ip || strHasPre "192.168." ip || is172Private ip

/-- `getNetworkGroup(ip)` from the source.  In the private branch the
source inspects `parts[0]`/`parts[1]` and returns a per-block tag; if no
branch returns (and always for non-private addresses) it falls through to
`parts.slice(0, 3).join('.')`. -/
def getNetworkGroup (ip : String) : String :=
  if isPrivateIP ip = true ∧ (jsSplit '.' ip)[0]? = some "10" then "LAN-10"
  else if isPrivateIP ip = true ∧
      ((jsSplit '.' ip)[0]? = some "192" ∧ (jsSplit '.' ip)[1]? = some "168") then
    "LAN-192.168"
  else if isPrivateIP ip = true ∧ (jsSplit '.' ip)[0]? = some "172" then "LAN-172"
  else jsJoin '.' ((jsSplit '.' ip).take 3)

/-! ### Classifier lemmas -/

theorem splitAux_ne_nil (sep : Char) (cs acc : List Char) : splitAux sep cs acc ≠ [] := by
  induction cs generalizing acc with
  | nil => simp [splitAux]
  | cons c cs ih =>
    simp only [splitAux]
    split
    · simp
    · exact ih _

theorem jsJoinL_cons (sep : Char) (x : List Char) (xs : List (List Char)) (h : xs ≠ []) :
    jsJoinL sep (x :: xs) = x ++ sep :: jsJoinL sep xs := by
  cases xs with
  | nil => exact absurd rfl h
  | cons y ys => rfl

theorem jsJoinL_splitAux (sep : Char) (cs acc : List Char) :
    jsJoinL sep (splitAux sep cs acc) = acc.reverse ++ cs := by
  induction cs generalizing acc with
  | nil => simp [splitAux, jsJoinL]
  | cons c cs ih =>
    simp only [splitAux]
    split
    · rename_i hc
      rw [jsJoinL_cons sep _ _ (splitAux_ne_nil sep cs []), ih []]
      simp [hc]
    · rw [ih (c :: acc)]
      simp

theorem jsJoin_jsSplit (sep : Char) (s : String) : jsJoin sep (jsSplit sep s) = s := by
  unfold jsJoin jsSplit
  rw [List.map_map]
  have hdata : (String.data ∘ String.mk) = (id : List Char → List Char) := rfl
  rw [hdata, List.map_id, jsJoinL_splitAux]
  simp

theorem listPre_exists {p s : List Char} (h : listPre p s = true) : ∃ t, s = p ++ t := by
  induction p generalizing s with
  | nil => exact ⟨s, rfl⟩
  | cons c cs ih =>
    cases s with
    | nil => simp [listPre] at h
    | cons d ds =>
      simp only [listPre, Bool.and_eq_true, decide_eq_true_eq] at h
      obtain ⟨rfl, h2⟩ := h
      obtain ⟨t, rfl⟩ := ih h2
      exact ⟨t, rfl⟩

theorem listPre_mono {p q s : List Char} (h : listPre (p ++ q) s = true) :
    listPre p s = true := by
  induction p generalizing s with
  | nil => rfl
  | cons c cs ih =>
    cases s with
    | nil => simp [listPre] at h
    | cons d ds =>
      simp only [List.cons_append, listPre, Bool.and_eq_true] at h ⊢
      exact ⟨h.1, ih h.2⟩

theorem strHasPre_exists {p s : String} (h : strHasPre p s = true) :
    ∃ t, s.data = p.data ++ t :=
  listPre_exists h

theorem is172_hasPre {s : String} (h : is172Private s = true) :
    strHasPre "172." s = true := by
  simp only [is172Private, Bool.or_eq_true] at h
  rcases h with ((((((((((((((h | h) | h) | h) | h) | h) | h) | h) | h) | h) | h) | h) | h) | h) | h) | h <;>
    exact listPre_mono h

theorem jsSplit_head10 {s : String} (h : strHasPre "10." s = true) :
    ∃ rest, jsSplit '.' s = "10" :: rest := by
  obtain ⟨t, ht⟩ := strHasPre_exists h
  refine ⟨(splitAux '.' t []).map String.mk, ?_⟩
  unfold jsSplit
  rw [ht]
  rfl

theorem jsSplit_head192168 {s : String} (h : strHasPre "192.168." s = true) :
    ∃ rest, jsSplit '.' s = "192" :: "168" :: rest := by
  obtain ⟨t, ht⟩ := strHasPre_exists h
  refine ⟨(splitAux '.' t []).map String.mk, ?_⟩
  unfold jsSplit
  rw [ht]
  rfl

theorem jsSplit_head172 {s : String} (h : strHasPre "172." s = true) :
    ∃ rest, jsSplit '.' s = "172" :: rest := by
  obtain ⟨t, ht⟩ := strHasPre_exists h
  refine ⟨(splitAux '.' t []).map String.mk, ?_⟩
  unfold jsSplit
  rw [ht]
  rfl

theorem group_of_10 {s : String} (h : strHasPre "10." s = true) :
    getNetworkGroup s = "LAN-10" := by
  obtain ⟨rest, hr⟩ := jsSplit_head10 h
  have hp : isPrivateIP s = true := by simp [isPrivateIP, h]
  unfold getNetworkGroup
  rw [if_pos ⟨hp, by rw [hr]; simp⟩]

theorem group_of_192168 {s : String} (h : strHasPre "192.168." s = true) :
    getNetworkGroup s = "LAN-192.168" := by
  obtain ⟨rest, hr⟩ := jsSplit_head192168 h
  have hp : isPrivateIP s = true := by simp [isPrivateIP, h]
  unfold getNetworkGroup
  rw [if_neg (by rw [hr]; simp), if_pos ⟨hp, by rw [hr]; simp⟩]

theorem group_of_172 {s : String} (h : is172Private s = true) :
    getNetworkGroup s = "LAN-172" := by
  obtain ⟨rest, hr⟩ := jsSplit_head172 (is172_hasPre h)
  have hp : isPrivateIP s = true := by simp [isPrivateIP, h]
  unfold getNetworkGroup
  rw [if_neg (by rw [hr]; simp), if_neg (by rw [hr]; simp), if_pos ⟨hp, by rw [hr]; simp⟩]

theorem group_private_tag {s : String} (h : isPrivateIP s = true) :
    getNetworkGroup s = "LAN-10" ∨ getNetworkGroup s = "LAN-192.168" ∨
      getNetworkGroup s = "LAN-172" := by
  have h' := h
  simp only [isPrivateIP, Bool.or_eq_true] at h'
  rcases h' with (h' | h') | h'
  · exact Or.inl (group_of_10 h')
  · exact Or.inr (Or.inl (group_of_192168 h'))
  · exact Or.inr (Or.inr (group_of_172 h'))

theorem group_public {s : String} (h : isPrivateIP s = false) :
    getNetworkGroup s = jsJoin '.' ((jsSplit '.' s).take 3) := by
  unfold getNetworkGroup
  rw [if_neg (by simp [h]), if_neg (by simp [h]), if_neg (by simp [h])]

theorem jsSplit_ne_nil (sep : Char) (s : String) : jsSplit sep s ≠ [] := by
  unfold jsSplit
  intro hc
  exact splitAux_ne_nil sep s.data [] (List.map_eq_nil_iff.mp hc)

theorem jsJoin_single (p : String) : jsJoin '.' [p] = p := by
  unfold jsJoin jsJoinL
  rfl

theorem string_data_nil {s : String} (h : s.data = []) : s = "" := by
  cases s
  simp_all

theorem jsJoin_two_ne_empty (p q : String) (rest : List String) :
    jsJoin '.' (p :: q :: rest) ≠ "" := by
  unfold jsJoin
  intro hc
  have hd : jsJoinL '.' ((p :: q :: rest).map String.data) = [] := congrArg String.data hc
  rw [List.map_cons, jsJoinL_cons '.' _ _ (by simp)] at hd
  exact absurd hd (by simp)

theorem group_public_short {s : String} (hpriv : isPrivateIP s = false)
    (hlen : (jsSplit '.' s).length ≤ 3) : getNetworkGroup s = s := by
  rw [group_public hpriv, List.take_of_length_le hlen, jsJoin_jsSplit]

theorem group_ne_empty {s : String} (h : s ≠ "") : getNetworkGroup s ≠ "" := by
  cases hp : isPrivateIP s with
  | true =>
    rcases group_private_tag hp with hg | hg | hg <;> rw [hg] <;> decide
  | false =>
    rw [group_public hp]
    cases hsp : jsSplit '.' s with
    | nil => exact absurd hsp (jsSplit_ne_nil '.' s)
    | cons p rest =>
      cases rest with
      | nil =>
        have : p = s := by
          have := jsJoin_jsSplit '.' s
          rw [hsp, jsJoin_single] at this
          exact this
        simpa [List.take, jsJoin_single, this] using h
      | cons q rest' =>
        simpa [List.take] using jsJoin_two_ne_empty p q (rest'.take 1)

/-! ## JS `Map` / `Set` embeddings

A JS `Map` is an insertion-ordered association list: `get`, `set`
(update-in-place for a present key, append otherwise), `delete`.  A JS
`Set` is an insertion-ordered duplicate-free list: `add` appends when
absent, `delete` removes. -/

/-- `Map.prototype.get`. -/
def mget : List (String × α) → String → Option α
  | [], _ => none
  | (k', v) :: rest, k => if k' = k then some v else mget rest k

/-- `Map.prototype.set`. -/
def mset : List (String × α) → String → α → List (String × α)
  | [], k, v => [(k, v)]
  | (k', v') :: rest, k, v =>
    if k' = k then (k, v) :: rest else (k', v') :: mset rest k v

/-- `Map.prototype.delete`. -/
def mdel : List (String × α) → String → List (String × α)
  | [], _ => []
  | (k', v') :: rest, k => if k' = k then mdel rest k else (k', v') :: mdel rest k

/-- `Set.prototype.add`. -/
def sadd (s : List String) (x : String) : List String :=
  if x ∈ s then s else s ++ [x]

/-- `Set.prototype.delete`. -/
def sdel (s : List String) (x : String) : List String :=
  s.filter (fun y => y != x)

/-! ## The server state and events -/

/-- The `DeviceInfo` record of the source.  `groupKey` is declared
optional in the TS interface but is assigned at every creation site, so
it is embedded as a total field; the `if (device.groupKey)` truthiness
guards of the source become `groupKey ≠ ""` tests. -/
structure DeviceInfo where
  id : String
  lastSeen : Nat
  type : Option String := none
  icon : Option String := none
  name : Option String := none
  groupKey : String
deriving DecidableEq

/-- The outbound (server-to-client) event envelopes of the source.
Binary chunks are embedded as opaque byte lists. -/
inductive OutEvent where
  | deviceInfoRoster (id : String) (devices : List DeviceInfo)
  | deviceJoined (id : String)
  | deviceInfoUpdate (id typ icon nm : String)
  | deviceLeft (id : String)
  | message (fromId msg : String)
  | fileTransferRequest (fromId fileName : String) (fileSize : Nat) (transferId : String)
  | fileTransferResponse (fromId transferId : String) (accepted : Bool)
  | fileData (fromId : String) (chunk : List Nat) (fileName transferId : String)
      (offset totalSize : Nat)
  | cancelTransfer (fromId transferId : String)
  | signal (fromId sig : String)
  | p2pFailed (fromId transferId : String)
deriving DecidableEq

/-- The process-wide mutable state of the server: the `devices` map, the
`ipGroups` map, and the set of currently connected sockets (the rooms
socket.io delivers `io.to(id)` into). -/
structure ServerState where
  devices : List (String × DeviceInfo)
  ipGroups : List (String × List String)
  connected : List String
deriving DecidableEq

/-- Inbound transport events.  Events whose handler reads `Date.now()`
carry the observed clock value. -/
inductive InEvent where
  | connect (id addr : String) (now : Nat)
  | heartbeat (id : String) (now : Nat)
  | deviceInfo (id typ icon nm : String)
  | sendMessage (id targetId msg : String)
  | fileTransferRequest (id targetId fileName : String) (fileSize : Nat) (transferId : String)
  | fileTransferResponse (id targetId transferId : String) (accepted : Bool)
  | fileData (id targetId : String) (chunk : List Nat) (fileName transferId : String)
      (offset totalSize : Nat)
  | cancelTransfer (id targetId transferId : String)
  | signal (id targetId sig : String)
  | p2pFailed (id targetId transferId : String)
  | disconnect (id : String)
  | sweep (now : Nat)
deriving DecidableEq

/-- `io.to(target).emit(ev)`: delivered exactly when `target` is a
currently connected socket, otherwise a silent no-op. -/
def emitTo (conn : List String) (target : String) (ev : OutEvent) :
    List (String × OutEvent) :=
  if target ∈ conn then [(target, ev)] else []

/-- `ids.forEach(id => io.to(id).emit(ev))`. -/
def broadcastTo (conn : List String) : List String → OutEvent → List (String × OutEvent)
  | [], _ => []
  | m :: ms, ev => emitTo conn m ev ++ broadcastTo conn ms ev

/-- The shared removal sequence of `disconnect` and `cleanupDevices`:
`ipGroups.get(gk)?.delete(id); if (ipGroups.get(gk)?.size === 0)
ipGroups.delete(gk)`. -/
def removeFromGroups (groups : List (String × List String)) (gk id : String) :
    List (String × List String) :=
  let groups1 :=
    match mget groups gk with
    | some ms => mset groups gk (sdel ms id)
    | none => groups
  match mget groups1 gk with
  | some ms => if ms = [] then mdel groups1 gk else groups1
  | none => groups1

/-- One iteration of the `cleanupDevices` loop, processing one snapshot
entry against the current maps. -/
def evictOne (conn : List String) (now : Nat)
    (acc : List (String × DeviceInfo) × List (String × List String) × List (String × OutEvent))
    (entry : String × DeviceInfo) :
    List (String × DeviceInfo) × List (String × List String) × List (String × OutEvent) :=
  let (devs, groups, es) := acc
  if 30000 < now - entry.2.lastSeen then
    if entry.2.groupKey ≠ "" then
      let groups2 := removeFromGroups groups entry.2.groupKey entry.1
      let notice := broadcastTo conn ((mget groups2 entry.2.groupKey).getD [])
        (OutEvent.deviceLeft entry.1)
      (mdel devs entry.1, groups2, es ++ notice)
    else (mdel devs entry.1, groups, es)
  else (devs, groups, es)

/-- One cooperative step of the server: the handler of one inbound event,
returning the new state and the deliveries it performed, in order. -/
def step (s : ServerState) : InEvent → ServerState × List (String × OutEvent)
  | .connect id addr _now =>
    let conn := sadd s.connected id
    let devices1 := if (mget s.devices id).isSome then mdel s.devices id else s.devices
    let gk := getNetworkGroup addr
    let groups1 := if (mget s.ipGroups gk).isSome then s.ipGroups else mset s.ipGroups gk []
    let members := sadd ((mget groups1 gk).getD []) id
    let groups2 := mset groups1 gk members
    let roster := (members.filter (fun m => m != id)).filterMap (fun m => mget devices1 m)
    let joinNotices := broadcastTo conn (members.filter (fun m => m != id))
      (OutEvent.deviceJoined id)
    let newDev : DeviceInfo := { id := id, lastSeen := _now, groupKey := gk }
    ({ devices := mset devices1 id newDev, ipGroups := groups2, connected := conn },
      (id, OutEvent.deviceInfoRoster id roster) :: joinNotices)
  | .heartbeat id now =>
    match mget s.devices id with
    | some d => ({ s with devices := mset s.devices id { d with lastSeen := now } }, [])
    | none => (s, [])
  | .deviceInfo id typ icon nm =>
    match mget s.devices id with
    | some d =>
      let d2 := { d with type := some typ, icon := some icon, name := some nm }
      let es :=
        if d.groupKey ≠ "" then
          broadcastTo s.connected ((mget s.ipGroups d.groupKey).getD [])
            (OutEvent.deviceInfoUpdate id typ icon nm)
        else []
      ({ s with devices := mset s.devices id d2 }, es)
    | none => (s, [])
  | .sendMessage id targetId msg =>
    (s, emitTo s.connected targetId (OutEvent.message id msg))
  | .fileTransferRequest id targetId fileName fileSize transferId =>
    (s, emitTo s.connected targetId (OutEvent.fileTransferRequest id fileName fileSize transferId))
  | .fileTransferResponse id targetId transferId accepted =>
    (s, emitTo s.connected targetId (OutEvent.fileTransferResponse id transferId accepted))
  | .fileData id targetId chunk fileName transferId offset totalSize =>
    (s, emitTo s.connected targetId
      (OutEvent.fileData id chunk fileName transferId offset totalSize))
  | .cancelTransfer id targetId transferId =>
    (s, emitTo s.connected targetId (OutEvent.cancelTransfer id transferId))
  | .signal id targetId sig =>
    (s, emitTo s.connected targetId (OutEvent.signal id sig))
  | .p2pFailed id targetId transferId =>
    (s, emitTo s.connected targetId (OutEvent.p2pFailed id transferId))
  | .disconnect id =>
    let conn := sdel s.connected id
    match mget s.devices id with
    | some d =>
      if d.groupKey ≠ "" then
        let groups2 := removeFromGroups s.ipGroups d.groupKey id
        let es := broadcastTo conn ((mget groups2 d.groupKey).getD [])
          (OutEvent.deviceLeft id)
        ({ devices := mdel s.devices id, ipGroups := groups2, connected := conn }, es)
      else ({ devices := mdel s.devices id, ipGroups := s.ipGroups, connected := conn }, [])
    | none => ({ s with devices := mdel s.devices id, connected := conn }, [])
  | .sweep now =>
    let r := s.devices.foldl (evictOne s.connected now) (s.devices, s.ipGroups, [])
    ({ devices := r.1, ipGroups := r.2.1, connected := s.connected }, r.2.2)

/-- Run a list of inbound events from a state. -/
def run (s : ServerState) : List InEvent → ServerState
  | [] => s
  | e :: es => run (step s e).1 es

/-- The empty boot state. -/
def initState : ServerState := ⟨[], [], []⟩

/-- A state the server can be in: reached from boot by some event trace. -/
def Reachable (s : ServerState) : Prop := ∃ evs, run initState evs = s

/-- Traces whose connects use transport-fresh ids (socket.io never
reuses a socket id) and nonempty observed addresses. -/
def goodAux : List String → List InEvent → Bool
  | _, [] => true
  | used, e :: es =>
    match e with
    | .connect id addr _ => decide (id ∉ used) && decide (addr ≠ "") && goodAux (id :: used) es
    | _ => goodAux used es

/-- A trace satisfying the transport contract assumed by the spec. -/
def GoodTrace (evs : List InEvent) : Prop := goodAux [] evs = true

/-! ## Map / Set toolkit lemmas -/

theorem mget_mset_self (m : List (String × α)) (k : String) (v : α) :
    mget (mset m k v) k = some v := by
  induction m with
  | nil => simp [mset, mget]
  | cons p rest ih =>
    obtain ⟨k', v'⟩ := p
    by_cases h : k' = k
    · simp [mset, h, mget]
    · simp [mset, h, mget, ih]

theorem mget_mset_ne (m : List (String × α)) {k k' : String} (v : α) (h : k ≠ k') :
    mget (mset m k v) k' = mget m k' := by
  induction m with
  | nil => simp [mset, mget, h]
  | cons p rest ih =>
    obtain ⟨k'', v''⟩ := p
    simp only [mset]
    by_cases h2 : k'' = k
    · subst h2
      rw [if_pos rfl]
      simp [mget, h]
    · rw [if_neg h2]
      by_cases h3 : k'' = k'
      · simp [mget, h3]
      · simp [mget, h3, ih]

theorem mget_mdel_self (m : List (String × α)) (k : String) :
    mget (mdel m k) k = none := by
  induction m with
  | nil => rfl
  | cons p rest ih =>
    obtain ⟨k', v'⟩ := p
    by_cases h : k' = k
    · simp [mdel, h, ih]
    · simp [mdel, mget, h, ih]

theorem mget_mdel_ne (m : List (String × α)) {k k' : String} (h : k ≠ k') :
    mget (mdel m k) k' = mget m k' := by
  induction m with
  | nil => rfl
  | cons p rest ih =>
    obtain ⟨k'', v''⟩ := p
    simp only [mdel]
    by_cases h2 : k'' = k
    · subst h2
      rw [if_pos rfl, ih]
      simp [mget, h]
    · rw [if_neg h2]
      by_cases h3 : k'' = k'
      · simp [mget, h3]
      · simp [mget, h3, ih]

theorem mget_mdel_some {m : List (String × α)} {k k' : String} {v : α}
    (h : mget (mdel m k) k' = some v) : mget m k' = some v := by
  by_cases hc : k = k'
  · subst hc
    rw [mget_mdel_self] at h
    cases h
  · rw [mget_mdel_ne _ hc] at h
    exact h

theorem mget_mem {m : List (String × α)} {k : String} {v : α} (h : mget m k = some v) :
    (k, v) ∈ m := by
  induction m with
  | nil => simp [mget] at h
  | cons p rest ih =>
    obtain ⟨k', v'⟩ := p
    simp only [mget] at h
    split at h
    · rename_i heq
      subst heq
      injection h with h
      subst h
      exact List.mem_cons_self _ _
    · exact List.mem_cons_of_mem _ (ih h)

theorem mem_mget {m : List (String × α)} (hnd : (m.map Prod.fst).Nodup) {k : String} {v : α}
    (h : (k, v) ∈ m) : mget m k = some v := by
  induction m with
  | nil => simp at h
  | cons p rest ih =>
    obtain ⟨k', v'⟩ := p
    simp only [List.map_cons, List.nodup_cons] at hnd
    rcases List.mem_cons.mp h with h | h
    · cases h
      simp [mget]
    · have hne : k' ≠ k := by
        intro hc
        subst hc
        exact hnd.1 (List.mem_map.mpr ⟨(k', v), h, rfl⟩)
      simp only [mget, if_neg hne]
      exact ih hnd.2 h

theorem mem_mset {m : List (String × α)} {k : String} {v : α} {p : String × α}
    (h : p ∈ mset m k v) : p = (k, v) ∨ p ∈ m := by
  induction m with
  | nil => simpa [mset] using h
  | cons q rest ih =>
    obtain ⟨k', v'⟩ := q
    by_cases h2 : k' = k
    · simp only [mset, if_pos h2] at h
      rcases List.mem_cons.mp h with h | h
      · exact Or.inl h
      · exact Or.inr (List.mem_cons_of_mem _ h)
    · simp only [mset, if_neg h2] at h
      rcases List.mem_cons.mp h with h | h
      · exact Or.inr (h ▸ List.mem_cons_self _ _)
      · rcases ih h with h | h
        · exact Or.inl h
        · exact Or.inr (List.mem_cons_of_mem _ h)

theorem mem_mdel {m : List (String × α)} {k : String} {p : String × α}
    (h : p ∈ mdel m k) : p ∈ m ∧ p.1 ≠ k := by
  induction m with
  | nil => simp [mdel] at h
  | cons q rest ih =>
    obtain ⟨k', v'⟩ := q
    by_cases h2 : k' = k
    · simp only [mdel, if_pos h2] at h
      exact ⟨List.mem_cons_of_mem _ (ih h).1, (ih h).2⟩
    · simp only [mdel, if_neg h2] at h
      rcases List.mem_cons.mp h with h | h
      · subst h
        exact ⟨List.mem_cons_self _ _, h2⟩
      · exact ⟨List.mem_cons_of_mem _ (ih h).1, (ih h).2⟩

theorem keys_mset {m : List (String × α)} {k k' : String} {v : α}
    (h : k' ∈ (mset m k v).map Prod.fst) : k' = k ∨ k' ∈ m.map Prod.fst := by
  rcases List.mem_map.mp h with ⟨p, hp, hfst⟩
  rcases mem_mset hp with h2 | h2
  · left
    rw [← hfst, h2]
  · right
    exact List.mem_map.mpr ⟨p, h2, hfst⟩

theorem nodup_mset {m : List (String × α)} (hnd : (m.map Prod.fst).Nodup) (k : String) (v : α) :
    ((mset m k v).map Prod.fst).Nodup := by
  induction m with
  | nil => simp [mset]
  | cons p rest ih =>
    obtain ⟨k', v'⟩ := p
    simp only [List.map_cons, List.nodup_cons] at hnd
    by_cases h2 : k' = k
    · subst h2
      simpa [mset, List.nodup_cons] using hnd
    · simp only [mset, if_neg h2, List.map_cons, List.nodup_cons]
      refine ⟨fun hc => ?_, ih hnd.2⟩
      rcases keys_mset hc with hc | hc
      · exact h2 hc
      · exact hnd.1 hc

theorem nodup_mdel {m : List (String × α)} (hnd : (m.map Prod.fst).Nodup) (k : String) :
    ((mdel m k).map Prod.fst).Nodup := by
  induction m with
  | nil => simp [mdel]
  | cons p rest ih =>
    obtain ⟨k', v'⟩ := p
    simp only [List.map_cons, List.nodup_cons] at hnd
    by_cases h2 : k' = k
    · simp only [mdel, if_pos h2]
      exact ih hnd.2
    · simp only [mdel, if_neg h2, List.map_cons, List.nodup_cons]
      refine ⟨fun hc => ?_, ih hnd.2⟩
      rcases List.mem_map.mp hc with ⟨p, hp, hfst⟩
      exact hnd.1 (List.mem_map.mpr ⟨p, (mem_mdel hp).1, hfst⟩)

theorem mem_sadd {s : List String} {x y : String} : x ∈ sadd s y ↔ x = y ∨ x ∈ s := by
  unfold sadd
  split
  · rename_i h
    constructor
    · exact Or.inr
    · rintro (rfl | hx)
      · exact h
      · exact hx
  · simp [or_comm]

theorem nodup_sadd {s : List String} (h : s.Nodup) (y : String) : (sadd s y).Nodup := by
  unfold sadd
  split
  · exact h
  · rename_i hy
    simpa [List.nodup_append] using ⟨h, fun hc => hy hc⟩

theorem mem_sdel {s : List String} {x y : String} : x ∈ sdel s y ↔ x ∈ s ∧ x ≠ y := by
  unfold sdel
  simp [List.mem_filter]

theorem nodup_sdel {s : List String} (h : s.Nodup) (y : String) : (sdel s y).Nodup :=
  List.Nodup.filter _ h

theorem mem_emitTo {conn : List String} {t : String} {ev : OutEvent} {p : String × OutEvent}
    (h : p ∈ emitTo conn t ev) : p = (t, ev) ∧ t ∈ conn := by
  unfold emitTo at h
  split at h
  · rename_i hc
    simp only [List.mem_singleton] at h
    exact ⟨h, hc⟩
  · simp at h

theorem mem_broadcastTo {conn ids : List String} {ev : OutEvent} {p : String × OutEvent}
    (h : p ∈ broadcastTo conn ids ev) : p.1 ∈ ids ∧ p.2 = ev ∧ p.1 ∈ conn := by
  induction ids with
  | nil => simp [broadcastTo] at h
  | cons m ms ih =>
    simp only [broadcastTo, List.mem_append] at h
    rcases h with h | h
    · obtain ⟨rfl, hc⟩ := mem_emitTo h
      exact ⟨List.mem_cons_self _ _, rfl, hc⟩
    · exact ⟨List.mem_cons_of_mem _ (ih h).1, (ih h).2⟩

theorem count_emitTo (conn : List String) (t : String) (ev : OutEvent)
    (m : String) (ev' : OutEvent) :
    (emitTo conn t ev).count (m, ev') =
      if t = m ∧ ev = ev' ∧ t ∈ conn then 1 else 0 := by
  unfold emitTo
  by_cases hc : t ∈ conn
  · by_cases h1 : t = m
    · subst h1
      by_cases h2 : ev = ev'
      · subst h2
        simp [hc]
      · have hne : ((t, ev') : String × OutEvent) ≠ (t, ev) := by
          simp only [Ne, Prod.mk.injEq]
          exact fun h => h2 h.2.symm
        simp [hc, h2, hne]
    · simp [hc, h1, Prod.mk.injEq, Ne.symm h1]
  · simp [hc]

theorem count_broadcastTo (conn ids : List String) (ev : OutEvent)
    (m : String) (ev' : OutEvent) :
    (broadcastTo conn ids ev).count (m, ev') =
      if ev = ev' ∧ m ∈ conn then ids.count m else 0 := by
  induction ids with
  | nil => simp [broadcastTo]
  | cons x xs ih =>
    simp only [broadcastTo, List.count_append, ih, count_emitTo, List.count_cons, beq_iff_eq]
    by_cases hB : ev = ev' ∧ m ∈ conn
    · rw [if_pos hB, if_pos hB]
      by_cases hC : x = m
      · subst hC
        rw [if_pos ⟨rfl, hB.1, hB.2⟩, if_pos rfl]
        omega
      · rw [if_neg (fun h : x = m ∧ ev = ev' ∧ x ∈ conn => hC h.1),
          if_neg hC]
        omega
    · rw [if_neg hB, if_neg hB,
        if_neg (fun h : x = m ∧ ev = ev' ∧ x ∈ conn => hB ⟨h.2.1, h.1 ▸ h.2.2⟩)]

theorem mget_eq_none {m : List (String × α)} {k : String} :
    mget m k = none ↔ ∀ p ∈ m, p.1 ≠ k := by
  induction m with
  | nil => simp [mget]
  | cons p rest ih =>
    obtain ⟨k', v'⟩ := p
    simp only [mget]
    by_cases h : k' = k
    · simp [h]
    · simp [h, ih]

theorem mdel_of_mget_none {m : List (String × α)} {k : String} (h : mget m k = none) :
    mdel m k = m := by
  induction m with
  | nil => rfl
  | cons p rest ih =>
    obtain ⟨k', v'⟩ := p
    simp only [mget] at h
    split at h
    · cases h
    · rename_i hne
      simp only [mdel, if_neg hne]
      rw [ih h]

theorem sadd_ne_nil (s : List String) (x : String) : sadd s x ≠ [] := by
  unfold sadd
  split
  · rename_i h
    exact List.ne_nil_of_mem h
  · simp

/-! ## The registry / group-index consistency invariant -/

instance decExDev (o : Option DeviceInfo) (g : String) :
    Decidable (∃ d, o = some d ∧ d.groupKey = g) :=
  decidable_of_iff (o.map DeviceInfo.groupKey = some g) (by
    cases o with
    | none => simp
    | some d => simp)

instance decExMem (o : Option (List String)) (k : String) :
    Decidable (∃ ms, o = some ms ∧ k ∈ ms) :=
  decidable_of_iff ((o.map (fun ms => decide (k ∈ ms))).getD false = true) (by
    cases o with
    | none => simp
    | some ms => simp)

/-- Consistency of the registry and group index, together with the
record well-formedness facts the handlers maintain: unique keys,
duplicate-free member sets, no empty group entry, `id` field equal to
the map key, nonempty (truthy) group key, every registered socket
connected, index membership backed by a matching registry record, and
every registry record indexed in its group. -/
@[reducible] def Inv (s : ServerState) : Prop :=
  (s.devices.map Prod.fst).Nodup ∧
  (s.ipGroups.map Prod.fst).Nodup ∧
  (∀ e ∈ s.ipGroups, e.2.Nodup ∧ e.2 ≠ []) ∧
  (∀ p ∈ s.devices, p.2.id = p.1 ∧ p.2.groupKey ≠ "" ∧ p.1 ∈ s.connected) ∧
  (∀ e ∈ s.ipGroups, ∀ m ∈ e.2, ∃ d, mget s.devices m = some d ∧ d.groupKey = e.1) ∧
  (∀ p ∈ s.devices, ∃ ms, mget s.ipGroups p.2.groupKey = some ms ∧ p.1 ∈ ms)

theorem inv_devNodup {s : ServerState} (h : Inv s) : (s.devices.map Prod.fst).Nodup := h.1

theorem inv_grpNodup {s : ServerState} (h : Inv s) : (s.ipGroups.map Prod.fst).Nodup := h.2.1

theorem inv_group_wf {s : ServerState} (h : Inv s) {g : String} {ms : List String}
    (hg : mget s.ipGroups g = some ms) : ms.Nodup ∧ ms ≠ [] :=
  h.2.2.1 (g, ms) (mget_mem hg)

theorem inv_dev_wf {s : ServerState} (h : Inv s) {k : String} {d : DeviceInfo}
    (hd : mget s.devices k = some d) :
    d.id = k ∧ d.groupKey ≠ "" ∧ k ∈ s.connected :=
  h.2.2.2.1 (k, d) (mget_mem hd)

theorem inv_memReg {s : ServerState} (h : Inv s) {g : String} {ms : List String}
    (hg : mget s.ipGroups g = some ms) {m : String} (hm : m ∈ ms) :
    ∃ d, mget s.devices m = some d ∧ d.groupKey = g :=
  h.2.2.2.2.1 (g, ms) (mget_mem hg) m hm

theorem inv_regMem {s : ServerState} (h : Inv s) {k : String} {d : DeviceInfo}
    (hd : mget s.devices k = some d) :
    ∃ ms, mget s.ipGroups d.groupKey = some ms ∧ k ∈ ms :=
  h.2.2.2.2.2 (k, d) (mget_mem hd)

theorem removeFromGroups_mget (groups : List (String × List String)) (gk id g : String) :
    mget (removeFromGroups groups gk id) g =
      if g = gk then
        match mget groups gk with
        | some ms => if sdel ms id = [] then none else some (sdel ms id)
        | none => none
      else mget groups g := by
  unfold removeFromGroups
  cases h0 : mget groups gk with
  | none =>
    simp only [h0]
    by_cases hg : g = gk
    · subst hg
      simp [h0]
    · simp [hg]
  | some ms =>
    simp only [h0]
    have h1 : mget (mset groups gk (sdel ms id)) gk = some (sdel ms id) :=
      mget_mset_self groups gk (sdel ms id)
    simp only [h1]
    by_cases hemp : sdel ms id = []
    · rw [if_pos hemp]
      by_cases hg : g = gk
      · subst hg
        simp [mget_mdel_self, hemp]
      · have hne : gk ≠ g := fun hc => hg hc.symm
        rw [mget_mdel_ne _ hne, mget_mset_ne _ _ hne]
        simp [hg]
    · rw [if_neg hemp]
      by_cases hg : g = gk
      · subst hg
        simp [h1, hemp]
      · have hne : gk ≠ g := fun hc => hg hc.symm
        rw [mget_mset_ne _ _ hne]
        simp [hg]

theorem removeFromGroups_nodup {groups : List (String × List String)}
    (h : (groups.map Prod.fst).Nodup) (gk id : String) :
    ((removeFromGroups groups gk id).map Prod.fst).Nodup := by
  unfold removeFromGroups
  cases h0 : mget groups gk with
  | none => simpa [h0] using h
  | some ms =>
    simp only [h0]
    have h1 : (mset groups gk (sdel ms id)).map Prod.fst |>.Nodup := nodup_mset h gk _
    cases h2 : mget (mset groups gk (sdel ms id)) gk with
    | none => simpa [h2] using h1
    | some ms' =>
      simp only [h2]
      split
      · exact nodup_mdel h1 gk
      · exact h1

/-- Removing a registered device from the registry together with the
`removeFromGroups` index update preserves the consistency invariant, for
any new connected set that keeps the other registered sockets. -/
theorem removal_preserves_inv {s : ServerState} (hInv : Inv s) {id : String} {d : DeviceInfo}
    (hd : mget s.devices id = some d) {conn' : List String}
    (hconn' : ∀ k, k ∈ s.connected → k ≠ id → k ∈ conn') :
    Inv ⟨mdel s.devices id, removeFromGroups s.ipGroups d.groupKey id, conn'⟩ := by
  obtain ⟨hDN, hGN, hGW, hDW, hMR, hRM⟩ := hInv
  have hGN' : ((removeFromGroups s.ipGroups d.groupKey id).map Prod.fst).Nodup :=
    removeFromGroups_nodup hGN d.groupKey id
  refine ⟨nodup_mdel hDN id, hGN', ?_, ?_, ?_, ?_⟩
  · intro e he
    have hmg : mget (removeFromGroups s.ipGroups d.groupKey id) e.1 = some e.2 := by
      obtain ⟨g, ms⟩ := e
      exact mem_mget hGN' he
    rw [removeFromGroups_mget] at hmg
    by_cases hg : e.1 = d.groupKey
    · rw [if_pos hg] at hmg
      cases h0 : mget s.ipGroups d.groupKey with
      | none => simp only [h0] at hmg; cases hmg
      | some ms0 =>
        simp only [h0] at hmg
        by_cases hemp : sdel ms0 id = []
        · rw [if_pos hemp] at hmg; cases hmg
        · rw [if_neg hemp] at hmg
          injection hmg with hmg
          rw [← hmg]
          exact ⟨nodup_sdel (hGW (d.groupKey, ms0) (mget_mem h0)).1 id, hemp⟩
    · rw [if_neg hg] at hmg
      exact hGW (e.1, e.2) (mget_mem hmg)
  · intro p hp
    obtain ⟨hp1, hpne⟩ := mem_mdel hp
    obtain ⟨h1, h2, h3⟩ := hDW p hp1
    exact ⟨h1, h2, hconn' _ h3 hpne⟩
  · intro e he m hm
    have hmg : mget (removeFromGroups s.ipGroups d.groupKey id) e.1 = some e.2 := by
      obtain ⟨g, ms⟩ := e
      exact mem_mget hGN' he
    rw [removeFromGroups_mget] at hmg
    by_cases hg : e.1 = d.groupKey
    · rw [if_pos hg] at hmg
      cases h0 : mget s.ipGroups d.groupKey with
      | none => simp only [h0] at hmg; cases hmg
      | some ms0 =>
        simp only [h0] at hmg
        by_cases hemp : sdel ms0 id = []
        · rw [if_pos hemp] at hmg; cases hmg
        · rw [if_neg hemp] at hmg
          injection hmg with hmg
          rw [← hmg] at hm
          obtain ⟨hm0, hmne⟩ := mem_sdel.mp hm
          obtain ⟨dm, hdm, hkey⟩ := hMR (d.groupKey, ms0) (mget_mem h0) m hm0
          refine ⟨dm, ?_, by rw [hkey, hg]⟩
          rw [mget_mdel_ne _ (fun hc => hmne hc.symm)]
          exact hdm
    · rw [if_neg hg] at hmg
      obtain ⟨dm, hdm, hkey⟩ := hMR (e.1, e.2) (mget_mem hmg) m hm
      have hmne : m ≠ id := by
        intro hc
        subst hc
        rw [hd] at hdm
        injection hdm with hdm
        exact hg (by rw [← hkey, ← hdm])
      refine ⟨dm, ?_, hkey⟩
      rw [mget_mdel_ne _ (fun hc => hmne hc.symm)]
      exact hdm
  · intro p hp
    obtain ⟨hp1, hpne⟩ := mem_mdel hp
    obtain ⟨ms, hms, hmem⟩ := hRM p hp1
    by_cases hg : p.2.groupKey = d.groupKey
    · rw [hg] at hms
      have hmemdel : p.1 ∈ sdel ms id := mem_sdel.mpr ⟨hmem, hpne⟩
      refine ⟨sdel ms id, ?_, hmemdel⟩
      rw [removeFromGroups_mget, if_pos hg, hms]
      simp only [if_neg (List.ne_nil_of_mem hmemdel)]
    · refine ⟨ms, ?_, hmem⟩
      rw [removeFromGroups_mget, if_neg hg]
      exact hms

theorem mset_mset (m : List (String × α)) (k : String) (v w : α) :
    mset (mset m k v) k w = mset m k w := by
  induction m with
  | nil => simp [mset]
  | cons p rest ih =>
    obtain ⟨k', v'⟩ := p
    by_cases h : k' = k
    · simp [mset, h]
    · simp [mset, h, ih]

/-- Updating a registered record in place, keeping its `id` and
`groupKey`, preserves the consistency invariant (heartbeat and
profile-update handlers). -/
theorem update_preserves_inv {s : ServerState} (hInv : Inv s) {id : String} {d d2 : DeviceInfo}
    (hd : mget s.devices id = some d) (hid2 : d2.id = d.id) (hkey : d2.groupKey = d.groupKey) :
    Inv ⟨mset s.devices id d2, s.ipGroups, s.connected⟩ := by
  obtain ⟨hDN, hGN, hGW, hDW, hMR, hRM⟩ := hInv
  have hd_wf := hDW (id, d) (mget_mem hd)
  refine ⟨nodup_mset hDN id d2, hGN, hGW, ?_, ?_, ?_⟩
  · intro p hp
    rcases mem_mset hp with rfl | hp'
    · exact ⟨by rw [hid2]; exact hd_wf.1, by rw [hkey]; exact hd_wf.2.1, hd_wf.2.2⟩
    · exact hDW p hp'
  · intro e he m hm
    obtain ⟨dm, hdm, hk⟩ := hMR e he m hm
    by_cases hmid : m = id
    · subst hmid
      rw [hd] at hdm
      injection hdm with hdm
      refine ⟨d2, mget_mset_self s.devices m d2, ?_⟩
      rw [hkey, hdm, hk]
    · refine ⟨dm, ?_, hk⟩
      rw [mget_mset_ne _ _ (fun hc => hmid hc.symm)]
      exact hdm
  · intro p hp
    rcases mem_mset hp with rfl | hp'
    · obtain ⟨ms, hms, hmem⟩ := hRM (id, d) (mget_mem hd)
      refine ⟨ms, ?_, hmem⟩
      show mget s.ipGroups d2.groupKey = some ms
      rw [hkey]
      exact hms
    · exact hRM p hp'

/-- Registration of a fresh socket id with a truthy group key preserves
the consistency invariant. -/
theorem connect_preserves_inv {s : ServerState} (hInv : Inv s) (id addr : String) (now : Nat)
    (hid : id ∉ s.connected) (haddr : addr ≠ "") :
    Inv (step s (.connect id addr now)).1 := by
  obtain ⟨hDN, hGN, hGW, hDW, hMR, hRM⟩ := hInv
  have hgkne : getNetworkGroup addr ≠ "" := group_ne_empty haddr
  have hnd : mget s.devices id = none := by
    cases h : mget s.devices id with
    | none => rfl
    | some d => exact absurd (hDW (id, d) (mget_mem h)).2.2 hid
  have hnm : ∀ g ms, mget s.ipGroups g = some ms → id ∉ ms := by
    intro g ms hg hc
    obtain ⟨dm, hdm, _⟩ := hMR (g, ms) (mget_mem hg) id hc
    rw [hnd] at hdm
    cases hdm
  have hshape : (step s (.connect id addr now)).1 =
      ⟨mset s.devices id ⟨id, now, none, none, none, getNetworkGroup addr⟩,
        mset s.ipGroups (getNetworkGroup addr)
          (sadd ((mget s.ipGroups (getNetworkGroup addr)).getD []) id),
        sadd s.connected id⟩ := by
    cases h0 : mget s.ipGroups (getNetworkGroup addr) with
    | some ms0 => simp [step, hnd, h0]
    | none => simp [step, hnd, h0, mset_mset, mget_mset_self]
  rw [hshape]
  have hM0nd : ((mget s.ipGroups (getNetworkGroup addr)).getD []).Nodup := by
    cases h0 : mget s.ipGroups (getNetworkGroup addr) with
    | some ms0 => exact (hGW _ (mget_mem h0)).1
    | none => simp
  have hM0id : id ∉ (mget s.ipGroups (getNetworkGroup addr)).getD [] := by
    cases h0 : mget s.ipGroups (getNetworkGroup addr) with
    | some ms0 => exact hnm _ _ h0
    | none => simp
  have hM0reg : ∀ m ∈ (mget s.ipGroups (getNetworkGroup addr)).getD [],
      ∃ dm, mget s.devices m = some dm ∧ dm.groupKey = getNetworkGroup addr := by
    cases h0 : mget s.ipGroups (getNetworkGroup addr) with
    | some ms0 =>
      intro m hm
      exact hMR _ (mget_mem h0) m hm
    | none => simp
  refine ⟨nodup_mset hDN id _, nodup_mset hGN _ _, ?_, ?_, ?_, ?_⟩
  · intro e he
    rcases mem_mset he with rfl | he'
    · exact ⟨nodup_sadd hM0nd id, sadd_ne_nil _ id⟩
    · exact hGW e he'
  · intro p hp
    rcases mem_mset hp with rfl | hp'
    · exact ⟨rfl, hgkne, mem_sadd.mpr (Or.inl rfl)⟩
    · obtain ⟨h1, h2, h3⟩ := hDW p hp'
      exact ⟨h1, h2, mem_sadd.mpr (Or.inr h3)⟩
  · intro e he m hm
    rcases mem_mset he with rfl | he'
    · rcases mem_sadd.mp hm with rfl | hm'
      · exact ⟨_, mget_mset_self s.devices m _, rfl⟩
      · obtain ⟨dm, hdm, hk⟩ := hM0reg m hm'
        have hmne : m ≠ id := fun hc => hM0id (hc ▸ hm')
        refine ⟨dm, ?_, hk⟩
        rw [mget_mset_ne _ _ (fun hc => hmne hc.symm)]
        exact hdm
    · obtain ⟨dm, hdm, hk⟩ := hMR e he' m hm
      have hmne : m ≠ id := by
        intro hc
        subst hc
        rw [hnd] at hdm
        cases hdm
      refine ⟨dm, ?_, hk⟩
      rw [mget_mset_ne _ _ (fun hc => hmne hc.symm)]
      exact hdm
  · intro p hp
    rcases mem_mset hp with rfl | hp'
    · refine ⟨sadd ((mget s.ipGroups (getNetworkGroup addr)).getD []) id,
        mget_mset_self s.ipGroups _ _, mem_sadd.mpr (Or.inl rfl)⟩
    · obtain ⟨ms, hms, hmem⟩ := hRM p hp'
      by_cases hpg : p.2.groupKey = getNetworkGroup addr
      · refine ⟨_, by rw [hpg]; exact mget_mset_self s.ipGroups _ _, ?_⟩
        rw [hpg] at hms
        rw [hms]
        simp only [Option.getD_some]
        exact mem_sadd.mpr (Or.inr hmem)
      · refine ⟨ms, ?_, hmem⟩
        rw [mget_mset_ne _ _ (fun hc => hpg hc.symm)]
        exact hms

theorem heartbeat_preserves_inv {s : ServerState} (hInv : Inv s) (id : String) (now : Nat) :
    Inv (step s (.heartbeat id now)).1 := by
  cases hd : mget s.devices id with
  | none =>
    simp only [step, hd]
    exact hInv
  | some d =>
    simp only [step, hd]
    exact update_preserves_inv hInv hd rfl rfl

theorem deviceInfo_preserves_inv {s : ServerState} (hInv : Inv s)
    (id typ icon nm : String) : Inv (step s (.deviceInfo id typ icon nm)).1 := by
  cases hd : mget s.devices id with
  | none =>
    simp only [step, hd]
    exact hInv
  | some d =>
    simp only [step, hd]
    exact update_preserves_inv hInv hd rfl rfl

/-- The seven direct-relay event kinds. -/
def isRelayEv : InEvent → Bool
  | .sendMessage .. => true
  | .fileTransferRequest .. => true
  | .fileTransferResponse .. => true
  | .fileData .. => true
  | .cancelTransfer .. => true
  | .signal .. => true
  | .p2pFailed .. => true
  | _ => false

theorem relay_fst {s : ServerState} {e : InEvent} (h : isRelayEv e = true) :
    (step s e).1 = s := by
  cases e <;> simp [isRelayEv] at h <;> rfl

theorem disconnect_preserves_inv {s : ServerState} (hInv : Inv s) (id : String) :
    Inv (step s (.disconnect id)).1 := by
  cases hd : mget s.devices id with
  | none =>
    obtain ⟨hDN, hGN, hGW, hDW, hMR, hRM⟩ := hInv
    simp only [step, hd]
    refine ⟨?_, hGN, hGW, ?_, ?_, ?_⟩
    · rw [mdel_of_mget_none hd]
      exact hDN
    · intro p hp
      rw [mdel_of_mget_none hd] at hp
      obtain ⟨h1, h2, h3⟩ := hDW p hp
      refine ⟨h1, h2, mem_sdel.mpr ⟨h3, mget_eq_none.mp hd p hp⟩⟩
    · intro e he m hm
      rcases hMR e he m hm with ⟨dm, hdm, hk⟩
      refine ⟨dm, ?_, hk⟩
      rw [mdel_of_mget_none hd]
      exact hdm
    · intro p hp
      rw [mdel_of_mget_none hd] at hp
      exact hRM p hp
  | some d =>
    have hne : d.groupKey ≠ "" := (inv_dev_wf hInv hd).2.1
    simp only [step, hd, if_pos hne]
    exact removal_preserves_inv hInv hd (fun k hk hkne => mem_sdel.mpr ⟨hk, hkne⟩)

/-- Full specification of the `cleanupDevices` loop: invariant
preservation, exact removal of the stale snapshot entries, and the exact
per-survivor `device-left` delivery counts. -/
theorem sweepAux_spec (conn : List String) (now : Nat) :
    ∀ (L devs : List (String × DeviceInfo)) (groups : List (String × List String))
      (es : List (String × OutEvent)),
      Inv ⟨devs, groups, conn⟩ →
      (∀ p ∈ L, mget devs p.1 = some p.2) →
      (L.map Prod.fst).Nodup →
      Inv ⟨(L.foldl (evictOne conn now) (devs, groups, es)).1,
        (L.foldl (evictOne conn now) (devs, groups, es)).2.1, conn⟩ ∧
      (∀ k, (∃ d, (k, d) ∈ L ∧ 30000 < now - d.lastSeen) →
        mget (L.foldl (evictOne conn now) (devs, groups, es)).1 k = none) ∧
      (∀ k, ¬(∃ d, (k, d) ∈ L ∧ 30000 < now - d.lastSeen) →
        mget (L.foldl (evictOne conn now) (devs, groups, es)).1 k = mget devs k) ∧
      (∀ m dm, mget devs m = some dm → ¬(30000 < now - dm.lastSeen) →
        ∀ e, ((∃ de, (e, de) ∈ L ∧ 30000 < now - de.lastSeen ∧ de.groupKey = dm.groupKey) →
            (L.foldl (evictOne conn now) (devs, groups, es)).2.2.count
                (m, OutEvent.deviceLeft e) =
              es.count (m, OutEvent.deviceLeft e) + 1) ∧
          (¬(∃ de, (e, de) ∈ L ∧ 30000 < now - de.lastSeen ∧ de.groupKey = dm.groupKey) →
            (L.foldl (evictOne conn now) (devs, groups, es)).2.2.count
                (m, OutEvent.deviceLeft e) =
              es.count (m, OutEvent.deviceLeft e))) ∧
      (∀ y x, (y, OutEvent.deviceLeft x) ∈ (L.foldl (evictOne conn now) (devs, groups, es)).2.2 →
        (y, OutEvent.deviceLeft x) ∈ es ∨
        ∃ dx dy, mget devs x = some dx ∧ mget devs y = some dy ∧
          dx.groupKey = dy.groupKey) := by
  intro L
  induction L with
  | nil =>
    intro devs groups es hInv hsnap hnd
    refine ⟨hInv, ?_, ?_, ?_, ?_⟩
    · rintro k ⟨d, hd, _⟩
      simp at hd
    · intro k _
      rfl
    · intro m dm _ _ e
      refine ⟨?_, fun _ => rfl⟩
      rintro ⟨de, hde, _⟩
      simp at hde
    · intro y x hyx
      exact Or.inl hyx
  | cons p0 L ih =>
    intro devs groups es hInv hsnap hnd
    obtain ⟨e0, de0⟩ := p0
    have hsnap0 : mget devs e0 = some de0 := hsnap (e0, de0) (List.mem_cons_self _ _)
    simp only [List.map_cons, List.nodup_cons] at hnd
    by_cases hstale : 30000 < now - de0.lastSeen
    · -- the entry is stale and gets evicted
      have hkey0 : de0.groupKey ≠ "" := (inv_dev_wf hInv hsnap0).2.1
      have hfold : (((e0, de0) :: L).foldl (evictOne conn now) (devs, groups, es)) =
          L.foldl (evictOne conn now)
            (mdel devs e0, removeFromGroups groups de0.groupKey e0,
              es ++ broadcastTo conn
                ((mget (removeFromGroups groups de0.groupKey e0) de0.groupKey).getD [])
                (OutEvent.deviceLeft e0)) := by
        rw [List.foldl_cons]
        congr 1
        simp only [evictOne, if_pos hstale, if_pos hkey0]
      have hInv' : Inv ⟨mdel devs e0, removeFromGroups groups de0.groupKey e0, conn⟩ :=
        removal_preserves_inv hInv hsnap0 (fun k hk _ => hk)
      have hsnap' : ∀ p ∈ L, mget (mdel devs e0) p.1 = some p.2 := by
        intro p hp
        have hpne : p.1 ≠ e0 := by
          intro hc
          exact hnd.1 (hc ▸ List.mem_map.mpr ⟨p, hp, rfl⟩)
        rw [mget_mdel_ne _ (fun hc => hpne hc.symm)]
        exact hsnap p (List.mem_cons_of_mem _ hp)
      obtain ⟨ihInv, ihNoneOf, ihSame, ihCount, ihSrc⟩ :=
        ih (mdel devs e0) (removeFromGroups groups de0.groupKey e0)
          (es ++ broadcastTo conn
            ((mget (removeFromGroups groups de0.groupKey e0) de0.groupKey).getD [])
            (OutEvent.deviceLeft e0)) hInv' hsnap' hnd.2
      rw [hfold]
      refine ⟨ihInv, ?_, ?_, ?_, ?_⟩
      · rintro k ⟨d, hd, hds⟩
        rcases List.mem_cons.mp hd with hd | hd
        · simp only [Prod.mk.injEq] at hd
          have hnotin : ¬∃ d', (e0, d') ∈ L ∧ 30000 < now - d'.lastSeen := by
            rintro ⟨d', hd', _⟩
            exact hnd.1 (List.mem_map_of_mem Prod.fst hd')
          rw [hd.1, ihSame e0 hnotin, mget_mdel_self]
        · exact ihNoneOf k ⟨d, hd, hds⟩
      · intro k hne
        have hkne : k ≠ e0 := by
          intro hc
          exact hne ⟨de0, hc ▸ List.mem_cons_self _ _, hstale⟩
        have hne' : ¬∃ d, (k, d) ∈ L ∧ 30000 < now - d.lastSeen := by
          rintro ⟨d, hd, hds⟩
          exact hne ⟨d, List.mem_cons_of_mem _ hd, hds⟩
        rw [ihSame k hne', mget_mdel_ne _ (fun hc => hkne hc.symm)]
      · intro m dm hm halive e
        have hmne : m ≠ e0 := by
          intro hc
          subst hc
          rw [hm] at hsnap0
          injection hsnap0 with hsnap0
          rw [← hsnap0] at hstale
          exact halive hstale
        have hm' : mget (mdel devs e0) m = some dm := by
          rw [mget_mdel_ne _ (fun hc => hmne hc.symm)]
          exact hm
        have hmconn : m ∈ conn := (inv_dev_wf hInv hm).2.2
        -- the `device-left e0` notices delivered to m by this iteration
        obtain ⟨ms0, hms0, hmem0⟩ := inv_regMem hInv hsnap0
        have hR : (mget (removeFromGroups groups de0.groupKey e0) de0.groupKey).getD [] =
            sdel ms0 e0 := by
          rw [removeFromGroups_mget, if_pos rfl, hms0]
          by_cases hemp : sdel ms0 e0 = []
          · simp [hemp]
          · simp [hemp]
        have hcnt_here : (broadcastTo conn
              ((mget (removeFromGroups groups de0.groupKey e0) de0.groupKey).getD [])
              (OutEvent.deviceLeft e0)).count (m, OutEvent.deviceLeft e0) =
            (if de0.groupKey = dm.groupKey then 1 else 0) := by
          rw [hR, count_broadcastTo, if_pos ⟨rfl, hmconn⟩]
          by_cases hsame : de0.groupKey = dm.groupKey
          · rw [if_pos hsame]
            obtain ⟨msm, hmsm, hmemm⟩ := inv_regMem hInv hm
            rw [← hsame, hms0] at hmsm
            injection hmsm with hmsm
            subst hmsm
            have hmmem : m ∈ sdel ms0 e0 := mem_sdel.mpr ⟨hmemm, hmne⟩
            exact List.count_eq_one_of_mem (nodup_sdel (inv_group_wf hInv hms0).1 e0) hmmem
          · rw [if_neg hsame]
            rw [List.count_eq_zero]
            intro hc
            have hc' := mem_sdel.mp hc
            obtain ⟨dm', hdm', hk'⟩ := inv_memReg hInv hms0 hc'.1
            rw [hm] at hdm'
            injection hdm' with hdm'
            exact hsame (by rw [← hdm'] at hk'; exact hk'.symm)
        constructor
        · rintro ⟨de, hde, hdes, hdek⟩
          rcases List.mem_cons.mp hde with hde | hde
          · simp only [Prod.mk.injEq] at hde
            rw [hde.2] at hdek
            have hnotin : ¬∃ de', (e0, de') ∈ L ∧ 30000 < now - de'.lastSeen ∧
                de'.groupKey = dm.groupKey := by
              rintro ⟨de', hde', _, _⟩
              exact hnd.1 (List.mem_map_of_mem Prod.fst hde')
            rw [hde.1, (ihCount m dm hm' halive e0).2 hnotin, List.count_append, hcnt_here,
              if_pos hdek]
          · rw [(ihCount m dm hm' halive e).1 ⟨de, hde, hdes, hdek⟩, List.count_append]
            by_cases heq : e = e0
            · rw [heq] at hde
              exact absurd (List.mem_map_of_mem Prod.fst hde) hnd.1
            · have : (broadcastTo conn
                  ((mget (removeFromGroups groups de0.groupKey e0) de0.groupKey).getD [])
                  (OutEvent.deviceLeft e0)).count (m, OutEvent.deviceLeft e) = 0 := by
                rw [count_broadcastTo,
                  if_neg (fun hc => heq (OutEvent.deviceLeft.injEq .. ▸ hc.1).symm)]
              omega
        · intro hne
          have hene0 : ¬(de0.groupKey = dm.groupKey) ∨ e ≠ e0 := by
            by_cases heq : e = e0
            · subst heq
              refine Or.inl ?_
              intro hc
              exact hne ⟨de0, List.mem_cons_self _ _, hstale, hc⟩
            · exact Or.inr heq
          have hne' : ¬∃ de, (e, de) ∈ L ∧ 30000 < now - de.lastSeen ∧
              de.groupKey = dm.groupKey := by
            rintro ⟨de, hde, hdes, hdek⟩
            exact hne ⟨de, List.mem_cons_of_mem _ hde, hdes, hdek⟩
          rw [(ihCount m dm hm' halive e).2 hne', List.count_append]
          rcases hene0 with hk | hene
          · by_cases heq : e = e0
            · subst heq
              rw [hcnt_here, if_neg hk]
              omega
            · have : (broadcastTo conn
                  ((mget (removeFromGroups groups de0.groupKey e0) de0.groupKey).getD [])
                  (OutEvent.deviceLeft e0)).count (m, OutEvent.deviceLeft e) = 0 := by
                rw [count_broadcastTo,
                  if_neg (fun hc => heq (OutEvent.deviceLeft.injEq .. ▸ hc.1).symm)]
              omega
          · have : (broadcastTo conn
                ((mget (removeFromGroups groups de0.groupKey e0) de0.groupKey).getD [])
                (OutEvent.deviceLeft e0)).count (m, OutEvent.deviceLeft e) = 0 := by
              rw [count_broadcastTo,
                if_neg (fun hc => hene (OutEvent.deviceLeft.injEq .. ▸ hc.1).symm)]
            omega
      · intro y x hyx
        rcases ihSrc y x hyx with hin | ⟨dx, dy, hdx, hdy, hkk⟩
        · rcases List.mem_append.mp hin with hin | hin
          · exact Or.inl hin
          · obtain ⟨hy1, hy2, _⟩ := mem_broadcastTo hin
            right
            have hx : x = e0 := by
              injection hy2 with h
            obtain ⟨ms0, hms0, hmem0⟩ := inv_regMem hInv hsnap0
            have hR : (mget (removeFromGroups groups de0.groupKey e0) de0.groupKey).getD [] =
                sdel ms0 e0 := by
              rw [removeFromGroups_mget, if_pos rfl, hms0]
              by_cases hemp : sdel ms0 e0 = []
              · simp [hemp]
              · simp [hemp]
            rw [hR] at hy1
            obtain ⟨dy, hdy, hdyk⟩ := inv_memReg hInv hms0 (mem_sdel.mp hy1).1
            refine ⟨de0, dy, ?_, hdy, hdyk.symm⟩
            rw [hx]
            exact hsnap0
        · exact Or.inr ⟨dx, dy, mget_mdel_some hdx, mget_mdel_some hdy, hkk⟩
    · -- the entry is fresh and is kept
      have hfold : (((e0, de0) :: L).foldl (evictOne conn now) (devs, groups, es)) =
          L.foldl (evictOne conn now) (devs, groups, es) := by
        rw [List.foldl_cons]
        congr 1
        simp only [evictOne, if_neg hstale]
      obtain ⟨ihInv, ihNoneOf, ihSame, ihCount, ihSrc⟩ :=
        ih devs groups es hInv (fun p hp => hsnap p (List.mem_cons_of_mem _ hp)) hnd.2
      rw [hfold]
      refine ⟨ihInv, ?_, ?_, ?_, ?_⟩
      · rintro k ⟨d, hd, hds⟩
        rcases List.mem_cons.mp hd with hd | hd
        · simp only [Prod.mk.injEq] at hd
          rw [hd.2] at hds
          exact absurd hds hstale
        · exact ihNoneOf k ⟨d, hd, hds⟩
      · intro k hne
        refine ihSame k ?_
        rintro ⟨d, hd, hds⟩
        exact hne ⟨d, List.mem_cons_of_mem _ hd, hds⟩
      · intro m dm hm halive e
        constructor
        · rintro ⟨de, hde, hdes, hdek⟩
          rcases List.mem_cons.mp hde with hde | hde
          · simp only [Prod.mk.injEq] at hde
            rw [hde.2] at hdes
            exact absurd hdes hstale
          · exact (ihCount m dm hm halive e).1 ⟨de, hde, hdes, hdek⟩
        · intro hne
          refine (ihCount m dm hm halive e).2 ?_
          rintro ⟨de, hde, hdes, hdek⟩
          exact hne ⟨de, List.mem_cons_of_mem _ hde, hdes, hdek⟩
      · intro y x hyx
        exact ihSrc y x hyx

theorem snapshot_of_nodup {devs : List (String × DeviceInfo)}
    (hnd : (devs.map Prod.fst).Nodup) : ∀ p ∈ devs, mget devs p.1 = some p.2 := by
  intro p hp
  obtain ⟨k, v⟩ := p
  exact mem_mget hnd hp

theorem sweep_preserves_inv {s : ServerState} (hInv : Inv s) (now : Nat) :
    Inv (step s (.sweep now)).1 := by
  obtain ⟨ihInv, _, _, _⟩ :=
    sweepAux_spec s.connected now s.devices s.devices s.ipGroups [] hInv
      (snapshot_of_nodup hInv.1) hInv.1
  exact ihInv

theorem sweep_devices_subset (conn : List String) (now : Nat) :
    ∀ (L devs : List (String × DeviceInfo)) (groups : List (String × List String))
      (es : List (String × OutEvent)) (p : String × DeviceInfo),
      p ∈ (L.foldl (evictOne conn now) (devs, groups, es)).1 → p ∈ devs := by
  intro L
  induction L with
  | nil => exact fun devs groups es p hp => hp
  | cons p0 L ih =>
    intro devs groups es p hp
    obtain ⟨e0, de0⟩ := p0
    rw [List.foldl_cons] at hp
    by_cases hstale : 30000 < now - de0.lastSeen
    · by_cases hkey : de0.groupKey ≠ ""
      · simp only [evictOne, if_pos hstale, if_pos hkey] at hp
        exact (mem_mdel (ih _ _ _ p hp)).1
      · simp only [evictOne, if_pos hstale, if_neg hkey] at hp
        exact (mem_mdel (ih _ _ _ p hp)).1
    · simp only [evictOne, if_neg hstale] at hp
      exact ih _ _ _ p hp

theorem step_devConn {s : ServerState} (h : ∀ p ∈ s.devices, p.1 ∈ s.connected)
    (e : InEvent) : ∀ p ∈ (step s e).1.devices, p.1 ∈ (step s e).1.connected := by
  cases e with
  | connect id addr now =>
    intro p hp
    cases h0 : mget s.ipGroups (getNetworkGroup addr) with
    | some ms0 =>
      simp only [step, h0] at hp ⊢
      rcases mem_mset hp with rfl | hp'
      · exact mem_sadd.mpr (Or.inl rfl)
      · split at hp'
        · exact mem_sadd.mpr (Or.inr (h p (mem_mdel hp').1))
        · exact mem_sadd.mpr (Or.inr (h p hp'))
    | none =>
      simp only [step, h0] at hp ⊢
      rcases mem_mset hp with rfl | hp'
      · exact mem_sadd.mpr (Or.inl rfl)
      · split at hp'
        · exact mem_sadd.mpr (Or.inr (h p (mem_mdel hp').1))
        · exact mem_sadd.mpr (Or.inr (h p hp'))
  | heartbeat id now =>
    intro p hp
    cases hd : mget s.devices id with
    | none =>
      simp only [step, hd] at hp ⊢
      exact h p hp
    | some d =>
      simp only [step, hd] at hp ⊢
      rcases mem_mset hp with rfl | hp'
      · exact h (id, d) (mget_mem hd)
      · exact h p hp'
  | deviceInfo id typ icon nm =>
    intro p hp
    cases hd : mget s.devices id with
    | none =>
      simp only [step, hd] at hp ⊢
      exact h p hp
    | some d =>
      simp only [step, hd] at hp ⊢
      rcases mem_mset hp with rfl | hp'
      · exact h (id, d) (mget_mem hd)
      · exact h p hp'
  | disconnect id =>
    intro p hp
    cases hd : mget s.devices id with
    | none =>
      simp only [step, hd] at hp ⊢
      obtain ⟨hp1, hpne⟩ := mem_mdel hp
      exact mem_sdel.mpr ⟨h p hp1, hpne⟩
    | some d =>
      by_cases hkey : d.groupKey ≠ ""
      · simp only [step, hd, if_pos hkey] at hp ⊢
        obtain ⟨hp1, hpne⟩ := mem_mdel hp
        exact mem_sdel.mpr ⟨h p hp1, hpne⟩
      · simp only [step, hd, if_neg hkey] at hp ⊢
        obtain ⟨hp1, hpne⟩ := mem_mdel hp
        exact mem_sdel.mpr ⟨h p hp1, hpne⟩
  | sweep now =>
    intro p hp
    simp only [step] at hp ⊢
    exact h p (sweep_devices_subset s.connected now s.devices s.devices s.ipGroups [] p hp)
  | sendMessage id targetId msg => exact h
  | fileTransferRequest id targetId fileName fileSize transferId => exact h
  | fileTransferResponse id targetId transferId accepted => exact h
  | fileData id targetId chunk fileName transferId offset totalSize => exact h
  | cancelTransfer id targetId transferId => exact h
  | signal id targetId sig => exact h
  | p2pFailed id targetId transferId => exact h

theorem run_devConn : ∀ (evs : List InEvent) (s : ServerState),
    (∀ p ∈ s.devices, p.1 ∈ s.connected) →
    ∀ p ∈ (run s evs).devices, p.1 ∈ (run s evs).connected := by
  intro evs
  induction evs with
  | nil => exact fun s h => h
  | cons e evs ih =>
    intro s h
    exact ih (step s e).1 (step_devConn h e)

/-- In every reachable state, every registered id is a connected socket:
registration happens on connect, and only disconnect removes from the
connected set while also deleting the registry entry. -/
theorem reachable_devConn {s : ServerState} (h : Reachable s) :
    ∀ p ∈ s.devices, p.1 ∈ s.connected := by
  obtain ⟨evs, rfl⟩ := h
  exact run_devConn evs initState (by simp [initState])

theorem connect_connected (s : ServerState) (id addr : String) (now : Nat) :
    (step s (.connect id addr now)).1.connected = sadd s.connected id := rfl

theorem step_connected_subset (s : ServerState) (e : InEvent) :
    ∀ x ∈ (step s e).1.connected,
      x ∈ s.connected ∨ ∃ id addr now, e = .connect id addr now ∧ x = id := by
  cases e with
  | connect id addr now =>
    intro x hx
    rw [connect_connected] at hx
    rcases mem_sadd.mp hx with rfl | hx'
    · exact Or.inr ⟨x, addr, now, rfl, rfl⟩
    · exact Or.inl hx'
  | heartbeat id now =>
    intro x hx
    cases hd : mget s.devices id with
    | none => simp only [step, hd] at hx; exact Or.inl hx
    | some d => simp only [step, hd] at hx; exact Or.inl hx
  | deviceInfo id typ icon nm =>
    intro x hx
    cases hd : mget s.devices id with
    | none => simp only [step, hd] at hx; exact Or.inl hx
    | some d => simp only [step, hd] at hx; exact Or.inl hx
  | disconnect id =>
    intro x hx
    cases hd : mget s.devices id with
    | none =>
      simp only [step, hd] at hx
      exact Or.inl (mem_sdel.mp hx).1
    | some d =>
      by_cases hkey : d.groupKey ≠ ""
      · simp only [step, hd, if_pos hkey] at hx
        exact Or.inl (mem_sdel.mp hx).1
      · simp only [step, hd, if_neg hkey] at hx
        exact Or.inl (mem_sdel.mp hx).1
  | sweep now => exact fun x hx => Or.inl hx
  | sendMessage id targetId msg => exact fun x hx => Or.inl hx
  | fileTransferRequest id targetId fileName fileSize transferId => exact fun x hx => Or.inl hx
  | fileTransferResponse id targetId transferId accepted => exact fun x hx => Or.inl hx
  | fileData id targetId chunk fileName transferId offset totalSize => exact fun x hx => Or.inl hx
  | cancelTransfer id targetId transferId => exact fun x hx => Or.inl hx
  | signal id targetId sig => exact fun x hx => Or.inl hx
  | p2pFailed id targetId transferId => exact fun x hx => Or.inl hx

theorem run_good_inv : ∀ (evs : List InEvent) (used : List String) (s : ServerState),
    Inv s → (∀ x ∈ s.connected, x ∈ used) → goodAux used evs = true → Inv (run s evs) := by
  intro evs
  induction evs with
  | nil => exact fun used s hInv _ _ => hInv
  | cons e evs ih =>
    intro used s hInv hsub hg
    cases e with
    | connect id addr now =>
      simp only [goodAux, Bool.and_eq_true, decide_eq_true_eq] at hg
      obtain ⟨⟨hid, haddr⟩, hg⟩ := hg
      have hidconn : id ∉ s.connected := fun hc => hid (hsub id hc)
      refine ih (id :: used) (step s (.connect id addr now)).1
        (connect_preserves_inv hInv id addr now hidconn haddr) ?_ hg
      intro x hx
      rcases step_connected_subset s _ x hx with hx' | ⟨id', addr', now', he, rfl⟩
      · exact List.mem_cons_of_mem _ (hsub x hx')
      · injection he with h1 _ _
        rw [h1]
        exact List.mem_cons_self _ _
    | heartbeat id now =>
      refine ih used _ (heartbeat_preserves_inv hInv id now) ?_ hg
      intro x hx
      rcases step_connected_subset s _ x hx with hx' | ⟨_, _, _, he, _⟩
      · exact hsub x hx'
      · cases he
    | deviceInfo id typ icon nm =>
      refine ih used _ (deviceInfo_preserves_inv hInv id typ icon nm) ?_ hg
      intro x hx
      rcases step_connected_subset s _ x hx with hx' | ⟨_, _, _, he, _⟩
      · exact hsub x hx'
      · cases he
    | disconnect id =>
      refine ih used _ (disconnect_preserves_inv hInv id) ?_ hg
      intro x hx
      rcases step_connected_subset s _ x hx with hx' | ⟨_, _, _, he, _⟩
      · exact hsub x hx'
      · cases he
    | sweep now =>
      refine ih used _ (sweep_preserves_inv hInv now) ?_ hg
      intro x hx
      rcases step_connected_subset s _ x hx with hx' | ⟨_, _, _, he, _⟩
      · exact hsub x hx'
      · cases he
    | sendMessage id targetId msg => exact ih used _ hInv hsub hg
    | fileTransferRequest id targetId fileName fileSize transferId => exact ih used _ hInv hsub hg
    | fileTransferResponse id targetId transferId accepted => exact ih used _ hInv hsub hg
    | fileData id targetId chunk fileName transferId offset totalSize => exact ih used _ hInv hsub hg
    | cancelTransfer id targetId transferId => exact ih used _ hInv hsub hg
    | signal id targetId sig => exact ih used _ hInv hsub hg
    | p2pFailed id targetId transferId => exact ih used _ hInv hsub hg

/-- A state reachable from boot by a trace satisfying the transport
contract (fresh connect ids, nonempty addresses). -/
def GoodReachable (s : ServerState) : Prop :=
  ∃ evs, GoodTrace evs ∧ run initState evs = s

theorem initState_inv : Inv initState := by
  refine ⟨?_, ?_, ?_, ?_, ?_, ?_⟩ <;> simp [initState]

theorem good_reachable_inv {s : ServerState} (h : GoodReachable s) : Inv s := by
  obtain ⟨evs, hg, rfl⟩ := h
  exact run_good_inv evs [] initState initState_inv (by simp [initState]) hg

theorem good_reachable_reachable {s : ServerState} (h : GoodReachable s) : Reachable s := by
  obtain ⟨evs, _, hrun⟩ := h
  exact ⟨evs, hrun⟩

theorem connect_devices (s : ServerState) (id addr : String) (now : Nat) :
    (step s (.connect id addr now)).1.devices =
      mset (if (mget s.devices id).isSome then mdel s.devices id else s.devices) id
        ⟨id, now, none, none, none, getNetworkGroup addr⟩ := rfl

theorem disconnect_devices (s : ServerState) (id : String) :
    (step s (.disconnect id)).1.devices = mdel s.devices id := by
  cases hd : mget s.devices id with
  | none => simp [step, hd]
  | some d =>
    by_cases hkey : d.groupKey ≠ ""
    · simp [step, hd, if_pos hkey]
    · simp [step, hd, if_neg hkey]

theorem mget_mdel_none {m : List (String × α)} {k k' : String}
    (h : mget m k' = none) : mget (mdel m k) k' = none := by
  by_cases hc : k = k'
  · subst hc
    exact mget_mdel_self m k
  · rw [mget_mdel_ne _ hc]
    exact h

theorem step_idField {s : ServerState} (h : ∀ p ∈ s.devices, p.2.id = p.1) (e : InEvent) :
    ∀ p ∈ (step s e).1.devices, p.2.id = p.1 := by
  cases e with
  | connect id addr now =>
    intro p hp
    rw [connect_devices] at hp
    rcases mem_mset hp with rfl | hp2
    · rfl
    · split at hp2
      · exact h p (mem_mdel hp2).1
      · exact h p hp2
  | heartbeat id now =>
    intro p hp
    cases hd : mget s.devices id with
    | none =>
      simp only [step, hd] at hp
      exact h p hp
    | some d =>
      simp only [step, hd] at hp
      rcases mem_mset hp with rfl | hp'
      · exact h (id, d) (mget_mem hd)
      · exact h p hp'
  | deviceInfo id typ icon nm =>
    intro p hp
    cases hd : mget s.devices id with
    | none =>
      simp only [step, hd] at hp
      exact h p hp
    | some d =>
      simp only [step, hd] at hp
      rcases mem_mset hp with rfl | hp'
      · exact h (id, d) (mget_mem hd)
      · exact h p hp'
  | disconnect id =>
    intro p hp
    rw [disconnect_devices] at hp
    exact h p (mem_mdel hp).1
  | sweep now =>
    intro p hp
    simp only [step] at hp
    exact h p (sweep_devices_subset s.connected now s.devices s.devices s.ipGroups [] p hp)
  | sendMessage id targetId msg => exact h
  | fileTransferRequest id targetId fileName fileSize transferId => exact h
  | fileTransferResponse id targetId transferId accepted => exact h
  | fileData id targetId chunk fileName transferId offset totalSize => exact h
  | cancelTransfer id targetId transferId => exact h
  | signal id targetId sig => exact h
  | p2pFailed id targetId transferId => exact h

theorem run_idField : ∀ (evs : List InEvent) (s : ServerState),
    (∀ p ∈ s.devices, p.2.id = p.1) → ∀ p ∈ (run s evs).devices, p.2.id = p.1 := by
  intro evs
  induction evs with
  | nil => exact fun s h => h
  | cons e evs ih => exact fun s h => ih (step s e).1 (step_idField h e)

/-- In every reachable state, a record's `id` field equals its map key. -/
theorem reachable_idField {s : ServerState} (h : Reachable s) :
    ∀ p ∈ s.devices, p.2.id = p.1 := by
  obtain ⟨evs, rfl⟩ := h
  exact run_idField evs initState (by simp [initState])

theorem step_no_register {s : ServerState} {id0 : String}
    (h : mget s.devices id0 = none) {e : InEvent}
    (hne : ∀ addr n, e ≠ .connect id0 addr n) :
    mget (step s e).1.devices id0 = none := by
  cases e with
  | connect id addr now =>
    have hid : id ≠ id0 := by
      intro hc
      exact hne addr now (by rw [hc])
    rw [connect_devices, mget_mset_ne _ _ hid]
    split
    · exact mget_mdel_none h
    · exact h
  | heartbeat id now =>
    cases hd : mget s.devices id with
    | none => simpa [step, hd] using h
    | some d =>
      have hid : id ≠ id0 := by
        intro hc
        rw [hc, h] at hd
        cases hd
      simp only [step, hd]
      rw [mget_mset_ne _ _ hid]
      exact h
  | deviceInfo id typ icon nm =>
    cases hd : mget s.devices id with
    | none => simpa [step, hd] using h
    | some d =>
      have hid : id ≠ id0 := by
        intro hc
        rw [hc, h] at hd
        cases hd
      simp only [step, hd]
      rw [mget_mset_ne _ _ hid]
      exact h
  | disconnect id =>
    rw [disconnect_devices]
    exact mget_mdel_none h
  | sweep now =>
    simp only [step]
    rw [mget_eq_none]
    intro p hp
    have hp' := sweep_devices_subset s.connected now s.devices s.devices s.ipGroups [] p hp
    exact mget_eq_none.mp h p hp'
  | sendMessage id targetId msg => exact h
  | fileTransferRequest id targetId fileName fileSize transferId => exact h
  | fileTransferResponse id targetId transferId accepted => exact h
  | fileData id targetId chunk fileName transferId offset totalSize => exact h
  | cancelTransfer id targetId transferId => exact h
  | signal id targetId sig => exact h
  | p2pFailed id targetId transferId => exact h

/-- Once an id is unregistered it stays unregistered along any trace that
never connects that id again. -/
theorem run_no_reregister : ∀ (evs : List InEvent) (s : ServerState) {id0 : String},
    mget s.devices id0 = none →
    (∀ addr n, InEvent.connect id0 addr n ∉ evs) →
    mget (run s evs).devices id0 = none := by
  intro evs
  induction evs with
  | nil =>
    intro s id0 h _
    exact h
  | cons e evs ih =>
    intro s id0 h hne
    refine ih (step s e).1 (step_no_register h ?_) ?_
    · intro addr n hc
      exact hne addr n (hc ▸ List.mem_cons_self _ _)
    · intro addr n hc
      exact hne addr n (List.mem_cons_of_mem _ hc)

/-- Every record in an emitted discovery roster is looked up from the
registry as it stands at registration time. -/
theorem connect_roster_src (s : ServerState) (id addr : String) (now : Nat)
    {q : String × OutEvent} (hq : q ∈ (step s (.connect id addr now)).2)
    {id' : String} {lst : List DeviceInfo} (h2 : q.2 = OutEvent.deviceInfoRoster id' lst) :
    ∀ r ∈ lst, ∃ m, mget s.devices m = some r := by
  intro r hr
  cases h0 : mget s.ipGroups (getNetworkGroup addr) with
  | some ms0 =>
    simp only [step, h0] at hq
    rcases List.mem_cons.mp hq with hq | hq
    · rw [hq] at h2
      simp only at h2
      injection h2 with h2a h2b
      rw [← h2b] at hr
      rcases List.mem_filterMap.mp hr with ⟨m, _, hm⟩
      split at hm
      · exact ⟨m, mget_mdel_some hm⟩
      · exact ⟨m, hm⟩
    · obtain ⟨_, hq2, _⟩ := mem_broadcastTo hq
      rw [h2] at hq2
      cases hq2
  | none =>
    simp only [step, h0] at hq
    rcases List.mem_cons.mp hq with hq | hq
    · rw [hq] at h2
      simp only at h2
      injection h2 with h2a h2b
      rw [← h2b] at hr
      rcases List.mem_filterMap.mp hr with ⟨m, _, hm⟩
      split at hm
      · exact ⟨m, mget_mdel_some hm⟩
      · exact ⟨m, hm⟩
    · obtain ⟨_, hq2, _⟩ := mem_broadcastTo hq
      rw [h2] at hq2
      cases hq2

/-- A roster emitted by a registration never mentions an id that is not
currently registered, provided records carry their own key (which holds
in every reachable state). -/
theorem roster_excludes_unregistered {s : ServerState}
    (hid : ∀ p ∈ s.devices, p.2.id = p.1) {e0 : String}
    (he : mget s.devices e0 = none) (z addr : String) (n : Nat) :
    ∀ q ∈ (step s (.connect z addr n)).2,
      ∀ id' lst, q.2 = OutEvent.deviceInfoRoster id' lst → ∀ r ∈ lst, r.id ≠ e0 := by
  intro q hq id' lst h2 r hr
  obtain ⟨m, hm⟩ := connect_roster_src s z addr n hq h2 r hr
  have hrid : r.id = m := hid (m, r) (mget_mem hm)
  rw [hrid]
  intro hc
  rw [hc, he] at hm
  cases hm

/-- The target and tagged outbound envelope of a direct-relay event:
the handler forwards the payload fields verbatim, tagged with the
corresponding outbound kind and the sender's id. -/
def relayOut : InEvent → Option (String × OutEvent)
  | .sendMessage id t msg => some (t, OutEvent.message id msg)
  | .fileTransferRequest id t fn fs tid => some (t, OutEvent.fileTransferRequest id fn fs tid)
  | .fileTransferResponse id t tid acc => some (t, OutEvent.fileTransferResponse id tid acc)
  | .fileData id t c fn tid off tot => some (t, OutEvent.fileData id c fn tid off tot)
  | .cancelTransfer id t tid => some (t, OutEvent.cancelTransfer id tid)
  | .signal id t sig => some (t, OutEvent.signal id sig)
  | .p2pFailed id t tid => some (t, OutEvent.p2pFailed id tid)
  | _ => none

theorem run_relay_frame (s : ServerState) :
    ∀ evs : List InEvent, (∀ e ∈ evs, isRelayEv e = true) → run s evs = s := by
  intro evs
  induction evs with
  | nil => intro; rfl
  | cons e evs ih =>
    intro h
    show run (step s e).1 evs = s
    rw [relay_fst (h e (List.mem_cons_self _ _))]
    exact ih (fun e' he' => h e' (List.mem_cons_of_mem _ he'))

theorem relay_exactness (s : ServerState) (hreach : Reachable s) (e : InEvent)
    (t : String) (out : OutEvent) (hrel : relayOut e = some (t, out)) :
    ((mget s.devices t).isSome = true → (step s e).2 = [(t, out)]) ∧
    (t ∉ s.connected → (step s e).2 = []) ∧
    ((step s e).2 = [(t, out)] ∨ (step s e).2 = []) := by
  have hdc := reachable_devConn hreach
  have key : ∀ out' : OutEvent,
      ((mget s.devices t).isSome = true → emitTo s.connected t out' = [(t, out')]) ∧
      (t ∉ s.connected → emitTo s.connected t out' = []) ∧
      (emitTo s.connected t out' = [(t, out')] ∨ emitTo s.connected t out' = []) := by
    intro out'
    by_cases hc : t ∈ s.connected
    · exact ⟨fun _ => by simp [emitTo, hc], fun hn => absurd hc hn,
        Or.inl (by simp [emitTo, hc])⟩
    · refine ⟨fun hs => ?_, fun _ => by simp [emitTo, hc], Or.inr (by simp [emitTo, hc])⟩
      obtain ⟨d, hd⟩ := Option.isSome_iff_exists.mp hs
      exact absurd (hdc (t, d) (mget_mem hd)) hc
  cases e <;>
    first
      | (simp only [relayOut, Option.some.injEq, Prod.mk.injEq] at hrel
         obtain ⟨rfl, rfl⟩ := hrel
         exact key _)
      | (simp only [relayOut] at hrel
         exact absurd hrel (by simp))

theorem sweep_emission_kinds (conn : List String) (now : Nat) :
    ∀ (L devs : List (String × DeviceInfo)) (groups : List (String × List String))
      (es : List (String × OutEvent)),
      (∀ q ∈ es, ∃ x, q.2 = OutEvent.deviceLeft x) →
      ∀ q ∈ (L.foldl (evictOne conn now) (devs, groups, es)).2.2,
        ∃ x, q.2 = OutEvent.deviceLeft x := by
  intro L
  induction L with
  | nil => exact fun devs groups es h q hq => h q hq
  | cons p0 L ih =>
    intro devs groups es h q hq
    obtain ⟨e0, de0⟩ := p0
    rw [List.foldl_cons] at hq
    by_cases hstale : 30000 < now - de0.lastSeen
    · by_cases hkey : de0.groupKey ≠ ""
      · simp only [evictOne, if_pos hstale, if_pos hkey] at hq
        refine ih _ _ _ ?_ q hq
        intro q' hq'
        rcases List.mem_append.mp hq' with hq' | hq'
        · exact h q' hq'
        · exact ⟨e0, (mem_broadcastTo hq').2.1⟩
      · simp only [evictOne, if_pos hstale, if_neg hkey] at hq
        exact ih _ _ _ h q hq
    · simp only [evictOne, if_neg hstale] at hq
      exact ih _ _ _ h q hq

/-- Per-step group isolation: a `device-joined` or `device-left` notice
about a registered device, or a roster record, is only delivered to
connections registered under the same group key. -/
def IsolationStep (s : ServerState) (e : InEvent) : Prop :=
  (∀ y x, (y, OutEvent.deviceJoined x) ∈ (step s e).2 →
    ∀ dx dy, mget (step s e).1.devices x = some dx → mget s.devices y = some dy →
      dx.groupKey = dy.groupKey) ∧
  (∀ y x, (y, OutEvent.deviceLeft x) ∈ (step s e).2 →
    ∀ dx dy, mget s.devices x = some dx → mget s.devices y = some dy →
      dx.groupKey = dy.groupKey) ∧
  (∀ y id' lst, (y, OutEvent.deviceInfoRoster id' lst) ∈ (step s e).2 →
    ∀ r ∈ lst, ∀ dy, mget (step s e).1.devices y = some dy → r.groupKey = dy.groupKey)

theorem group_isolation (s : ServerState) (hInv : Inv s) (e : InEvent)
    (hfresh : ∀ id addr n, e = .connect id addr n → id ∉ s.connected) :
    IsolationStep s e := by
  cases e with
  | connect id addr now =>
    have hid : id ∉ s.connected := hfresh id addr now rfl
    have hnd : mget s.devices id = none := by
      cases h : mget s.devices id with
      | none => rfl
      | some d => exact absurd (inv_dev_wf hInv h).2.2 hid
    have hdev : (step s (.connect id addr now)).1.devices =
        mset s.devices id ⟨id, now, none, none, none, getNetworkGroup addr⟩ := by
      rw [connect_devices, hnd]
      rfl
    cases h0 : mget s.ipGroups (getNetworkGroup addr) with
    | some ms0 =>
      have hem : (step s (.connect id addr now)).2 =
          (id, OutEvent.deviceInfoRoster id
            (((sadd ms0 id).filter (fun m => m != id)).filterMap (fun m => mget s.devices m))) ::
          broadcastTo (sadd s.connected id) ((sadd ms0 id).filter (fun m => m != id))
            (OutEvent.deviceJoined id) := by
        simp [step, hnd, h0]
      refine ⟨?_, ?_, ?_⟩
      · intro y x hy dx dy hdx hdy
        rw [hem] at hy
        rcases List.mem_cons.mp hy with hy | hy
        · cases hy
        · obtain ⟨hy1, hy2, _⟩ := mem_broadcastTo hy
          have hx : x = id := by injection hy2 with h
          have hy3 := List.mem_filter.mp hy1
          have hyne : y ≠ id := by simpa using hy3.2
          have hy4 : y ∈ ms0 := by
            rcases mem_sadd.mp hy3.1 with hc | hc
            · exact absurd hc hyne
            · exact hc
          obtain ⟨dy', hdy', hky'⟩ := inv_memReg hInv h0 hy4
          rw [hdy] at hdy'
          injection hdy' with hdy'
          rw [hdev, hx] at hdx
          rw [mget_mset_self] at hdx
          injection hdx with hdx
          rw [← hdx, hdy', hky']
      · intro y x hy dx dy hdx hdy
        rw [hem] at hy
        rcases List.mem_cons.mp hy with hy | hy
        · cases hy
        · obtain ⟨_, hy2, _⟩ := mem_broadcastTo hy
          cases hy2
      · intro y id' lst hy r hr dy hdy
        rw [hem] at hy
        rcases List.mem_cons.mp hy with hy | hy
        · injection hy with hy1 hy2
          injection hy2 with hy2a hy2b
          rw [hy2b] at hr
          rcases List.mem_filterMap.mp hr with ⟨m, hmf, hm⟩
          have hm3 := List.mem_filter.mp hmf
          have hmne : m ≠ id := by simpa using hm3.2
          have hm4 : m ∈ ms0 := by
            rcases mem_sadd.mp hm3.1 with hc | hc
            · exact absurd hc hmne
            · exact hc
          obtain ⟨dm', hdm', hkm'⟩ := inv_memReg hInv h0 hm4
          rw [hm] at hdm'
          injection hdm' with hdm'
          rw [hdev, hy1] at hdy
          rw [mget_mset_self] at hdy
          injection hdy with hdy
          rw [hdm', hkm', ← hdy]
        · obtain ⟨_, hy2, _⟩ := mem_broadcastTo hy
          cases hy2
    | none =>
      have hem : (step s (.connect id addr now)).2 =
          (id, OutEvent.deviceInfoRoster id
            (((sadd [] id).filter (fun m => m != id)).filterMap (fun m => mget s.devices m))) ::
          broadcastTo (sadd s.connected id) ((sadd [] id).filter (fun m => m != id))
            (OutEvent.deviceJoined id) := by
        simp [step, hnd, h0, mget_mset_self]
      have hempty : ((sadd ([] : List String) id).filter (fun m => m != id)) = [] := by
        simp [sadd]
      refine ⟨?_, ?_, ?_⟩
      · intro y x hy dx dy hdx hdy
        rw [hem, hempty] at hy
        rcases List.mem_cons.mp hy with hy | hy
        · cases hy
        · simp [broadcastTo] at hy
      · intro y x hy dx dy hdx hdy
        rw [hem, hempty] at hy
        rcases List.mem_cons.mp hy with hy | hy
        · cases hy
        · simp [broadcastTo] at hy
      · intro y id' lst hy r hr dy hdy
        rw [hem, hempty] at hy
        rcases List.mem_cons.mp hy with hy | hy
        · injection hy with hy1 hy2
          injection hy2 with hy2a hy2b
          rw [hy2b] at hr
          simp at hr
        · simp [broadcastTo] at hy
  | heartbeat id now =>
    have hnil : (step s (.heartbeat id now)).2 = [] := by
      cases hd : mget s.devices id with
      | none => simp [step, hd]
      | some d => simp [step, hd]
    refine ⟨?_, ?_, ?_⟩ <;> intro y
    · intro x hy
      rw [hnil] at hy
      cases hy
    · intro x hy
      rw [hnil] at hy
      cases hy
    · intro id' lst hy
      rw [hnil] at hy
      cases hy
  | deviceInfo id typ icon nm =>
    have hkinds : ∀ q ∈ (step s (.deviceInfo id typ icon nm)).2,
        q.2 = OutEvent.deviceInfoUpdate id typ icon nm := by
      cases hd : mget s.devices id with
      | none =>
        intro q hq
        simp only [step, hd] at hq
        cases hq
      | some d =>
        intro q hq
        by_cases hkey : d.groupKey ≠ ""
        · simp only [step, hd, if_pos hkey] at hq
          exact (mem_broadcastTo hq).2.1
        · simp only [step, hd, if_neg hkey] at hq
          cases hq
    refine ⟨?_, ?_, ?_⟩ <;> intro y
    · intro x hy dx dy _ _
      have := hkinds _ hy
      cases this
    · intro x hy dx dy _ _
      have := hkinds _ hy
      cases this
    · intro id' lst hy
      have := hkinds _ hy
      cases this
  | disconnect id =>
    cases hd : mget s.devices id with
    | none =>
      have hnil : (step s (.disconnect id)).2 = [] := by simp [step, hd]
      refine ⟨?_, ?_, ?_⟩ <;> intro y
      · intro x hy
        rw [hnil] at hy
        cases hy
      · intro x hy
        rw [hnil] at hy
        cases hy
      · intro id' lst hy
        rw [hnil] at hy
        cases hy
    | some d =>
      have hkey : d.groupKey ≠ "" := (inv_dev_wf hInv hd).2.1
      have hem : (step s (.disconnect id)).2 =
          broadcastTo (sdel s.connected id)
            ((mget (removeFromGroups s.ipGroups d.groupKey id) d.groupKey).getD [])
            (OutEvent.deviceLeft id) := by
        simp [step, hd, if_pos hkey]
      obtain ⟨ms0, hms0, hmem0⟩ := inv_regMem hInv hd
      have hR : (mget (removeFromGroups s.ipGroups d.groupKey id) d.groupKey).getD [] =
          sdel ms0 id := by
        rw [removeFromGroups_mget, if_pos rfl, hms0]
        by_cases hemp : sdel ms0 id = []
        · simp [hemp]
        · simp [hemp]
      refine ⟨?_, ?_, ?_⟩ <;> intro y
      · intro x hy dx dy _ _
        rw [hem] at hy
        obtain ⟨_, hy2, _⟩ := mem_broadcastTo hy
        cases hy2
      · intro x hy dx dy hdx hdy
        rw [hem, hR] at hy
        obtain ⟨hy1, hy2, _⟩ := mem_broadcastTo hy
        have hx : x = id := by injection hy2 with h
        obtain ⟨dy', hdy', hky'⟩ := inv_memReg hInv hms0 (mem_sdel.mp hy1).1
        rw [hdy] at hdy'
        injection hdy' with hdy'
        rw [hx, hd] at hdx
        injection hdx with hdx
        rw [← hdx, hdy', hky']
      · intro id' lst hy
        rw [hem] at hy
        obtain ⟨_, hy2, _⟩ := mem_broadcastTo hy
        cases hy2
  | sweep now =>
    obtain ⟨_, _, _, _, hsrc⟩ :=
      sweepAux_spec s.connected now s.devices s.devices s.ipGroups [] hInv
        (snapshot_of_nodup hInv.1) hInv.1
    refine ⟨?_, ?_, ?_⟩ <;> intro y
    · intro x hy dx dy _ _
      obtain ⟨x', hx'⟩ := sweep_emission_kinds s.connected now s.devices s.devices
        s.ipGroups [] (by intro q hq; cases hq) _ hy
      cases hx'
    · intro x hy dx dy hdx hdy
      rcases hsrc y x hy with hin | ⟨dx', dy', hdx', hdy', hkk⟩
      · cases hin
      · rw [hdx] at hdx'
        injection hdx' with hdx'
        rw [hdy] at hdy'
        injection hdy' with hdy'
        rw [hdx', hdy']
        exact hkk
    · intro id' lst hy
      obtain ⟨x', hx'⟩ := sweep_emission_kinds s.connected now s.devices s.devices
        s.ipGroups [] (by intro q hq; cases hq) _ hy
      cases hx'
  | sendMessage id targetId msg =>
    refine ⟨?_, ?_, ?_⟩ <;> intro y
    · intro x hy dx dy _ _
      obtain ⟨hq, _⟩ := mem_emitTo hy
      cases hq
    · intro x hy dx dy _ _
      obtain ⟨hq, _⟩ := mem_emitTo hy
      cases hq
    · intro id' lst hy
      obtain ⟨hq, _⟩ := mem_emitTo hy
      cases hq
  | fileTransferRequest id targetId fileName fileSize transferId =>
    refine ⟨?_, ?_, ?_⟩ <;> intro y
    · intro x hy dx dy _ _
      obtain ⟨hq, _⟩ := mem_emitTo hy
      cases hq
    · intro x hy dx dy _ _
      obtain ⟨hq, _⟩ := mem_emitTo hy
      cases hq
    · intro id' lst hy
      obtain ⟨hq, _⟩ := mem_emitTo hy
      cases hq
  | fileTransferResponse id targetId transferId accepted =>
    refine ⟨?_, ?_, ?_⟩ <;> intro y
    · intro x hy dx dy _ _
      obtain ⟨hq, _⟩ := mem_emitTo hy
      cases hq
    · intro x hy dx dy _ _
      obtain ⟨hq, _⟩ := mem_emitTo hy
      cases hq
    · intro id' lst hy
      obtain ⟨hq, _⟩ := mem_emitTo hy
      cases hq
  | fileData id targetId chunk fileName transferId offset totalSize =>
    refine ⟨?_, ?_, ?_⟩ <;> intro y
    · intro x hy dx dy _ _
      obtain ⟨hq, _⟩ := mem_emitTo hy
      cases hq
    · intro x hy dx dy _ _
      obtain ⟨hq, _⟩ := mem_emitTo hy
      cases hq
    · intro id' lst hy
      obtain ⟨hq, _⟩ := mem_emitTo hy
      cases hq
  | cancelTransfer id targetId transferId =>
    refine ⟨?_, ?_, ?_⟩ <;> intro y
    · intro x hy dx dy _ _
      obtain ⟨hq, _⟩ := mem_emitTo hy
      cases hq
    · intro x hy dx dy _ _
      obtain ⟨hq, _⟩ := mem_emitTo hy
      cases hq
    · intro id' lst hy
      obtain ⟨hq, _⟩ := mem_emitTo hy
      cases hq
  | signal id targetId sig =>
    refine ⟨?_, ?_, ?_⟩ <;> intro y
    · intro x hy dx dy _ _
      obtain ⟨hq, _⟩ := mem_emitTo hy
      cases hq
    · intro x hy dx dy _ _
      obtain ⟨hq, _⟩ := mem_emitTo hy
      cases hq
    · intro id' lst hy
      obtain ⟨hq, _⟩ := mem_emitTo hy
      cases hq
  | p2pFailed id targetId transferId =>
    refine ⟨?_, ?_, ?_⟩ <;> intro y
    · intro x hy dx dy _ _
      obtain ⟨hq, _⟩ := mem_emitTo hy
      cases hq
    · intro x hy dx dy _ _
      obtain ⟨hq, _⟩ := mem_emitTo hy
      cases hq
    · intro id' lst hy
      obtain ⟨hq, _⟩ := mem_emitTo hy
      cases hq

/-! ## Behavioral specifications of the sweeper and the profile-update
handler, proved from the handler embeddings -/

/-- What one `cleanupDevices` run does from a consistent state: the
post-state is consistent; exactly the entries with `now - lastSeen >
30000` are removed from the registry and from every group set; fresh
entries survive untouched; every surviving registered device receives
exactly one `device-left` notice per evicted device of its own group and
none for other groups; and an evicted id appears in no roster emitted by
any later registration, as long as the id is never re-connected. -/
def SweepSpec (s : ServerState) (now : Nat) : Prop :=
  Inv (step s (.sweep now)).1 ∧
  (∀ k d, mget s.devices k = some d → 30000 < now - d.lastSeen →
    mget (step s (.sweep now)).1.devices k = none ∧
    (∀ g ms, mget (step s (.sweep now)).1.ipGroups g = some ms → k ∉ ms)) ∧
  (∀ k d, mget s.devices k = some d → now - d.lastSeen ≤ 30000 →
    mget (step s (.sweep now)).1.devices k = some d) ∧
  (∀ m dm e de, mget s.devices m = some dm → now - dm.lastSeen ≤ 30000 →
    mget s.devices e = some de → 30000 < now - de.lastSeen →
    (step s (.sweep now)).2.count (m, OutEvent.deviceLeft e) =
      if de.groupKey = dm.groupKey then 1 else 0) ∧
  (∀ e de, mget s.devices e = some de → 30000 < now - de.lastSeen →
    ∀ evs : List InEvent, (∀ addr n, InEvent.connect e addr n ∉ evs) →
      ∀ z addr n, ∀ q ∈ (step (run (step s (.sweep now)).1 evs) (.connect z addr n)).2,
        ∀ id' lst, q.2 = OutEvent.deviceInfoRoster id' lst → ∀ r ∈ lst, r.id ≠ e)

theorem sweep_spec (s : ServerState) (hInv : Inv s) (now : Nat) : SweepSpec s now := by
  obtain ⟨ihInv, ihNone, ihSame, ihCount, _⟩ :=
    sweepAux_spec s.connected now s.devices s.devices s.ipGroups [] hInv
      (snapshot_of_nodup hInv.1) hInv.1
  have hstale_of : ∀ k d, mget s.devices k = some d → 30000 < now - d.lastSeen →
      ∃ d', (k, d') ∈ s.devices ∧ 30000 < now - d'.lastSeen :=
    fun k d hk hs => ⟨d, mget_mem hk, hs⟩
  refine ⟨ihInv, ?_, ?_, ?_, ?_⟩
  · intro k d hk hs
    refine ⟨ihNone k (hstale_of k d hk hs), ?_⟩
    intro g ms hg hc
    obtain ⟨dk, hdk, _⟩ := inv_memReg ihInv hg hc
    have hdk' : mget (List.foldl (evictOne s.connected now)
        (s.devices, s.ipGroups, []) s.devices).1 k = some dk := hdk
    rw [ihNone k (hstale_of k d hk hs)] at hdk'
    cases hdk'
  · intro k d hk hs
    have hne : ¬∃ d', (k, d') ∈ s.devices ∧ 30000 < now - d'.lastSeen := by
      rintro ⟨d', hd', hs'⟩
      have hh : mget s.devices k = some d' := mem_mget hInv.1 hd'
      rw [hk] at hh
      injection hh with hh
      rw [← hh] at hs'
      omega
    exact (ihSame k hne).trans hk
  · intro m dm e de hm hal he hse
    have halive : ¬(30000 < now - dm.lastSeen) := by omega
    by_cases hk : de.groupKey = dm.groupKey
    · rw [if_pos hk]
      have := (ihCount m dm hm halive e).1 ⟨de, mget_mem he, hse, hk⟩
      simpa using this
    · rw [if_neg hk]
      have hne : ¬∃ de', (e, de') ∈ s.devices ∧ 30000 < now - de'.lastSeen ∧
          de'.groupKey = dm.groupKey := by
        rintro ⟨de', hde', _, hk'⟩
        have hh : mget s.devices e = some de' := mem_mget hInv.1 hde'
        rw [he] at hh
        injection hh with hh
        rw [← hh] at hk'
        exact hk hk'
      have := (ihCount m dm hm halive e).2 hne
      simpa using this
  · intro e de he hse evs hnoc z addr n q hq id' lst hql r hr
    have hpostnone : mget (step s (.sweep now)).1.devices e = none :=
      ihNone e (hstale_of e de he hse)
    have hrunnone : mget (run (step s (.sweep now)).1 evs).devices e = none :=
      run_no_reregister evs _ hpostnone hnoc
    have hid0 : ∀ p ∈ s.devices, p.2.id = p.1 := fun p hp => (hInv.2.2.2.1 p hp).1
    have hid1 : ∀ p ∈ (step s (.sweep now)).1.devices, p.2.id = p.1 :=
      step_idField hid0 (.sweep now)
    have hid2 : ∀ p ∈ (run (step s (.sweep now)).1 evs).devices, p.2.id = p.1 :=
      run_idField evs _ hid1
    exact roster_excludes_unregistered hid2 hrunnone z addr n q hq id' lst hql r hr

/-- What the `device-info` handler does from a consistent state: a no-op
for an unregistered sender; for a registered sender, the record's
`type`/`icon`/`name` are set while `lastSeen` and `groupKey` are kept,
no other record and neither the group index nor the connected set
change, and every member of the sender's group — the sender included —
receives the `device-info-update` notice exactly once, with no delivery
outside the group. -/
def DeviceInfoSpec (s : ServerState) (id typ icon nm : String) : Prop :=
  (mget s.devices id = none →
    (step s (.deviceInfo id typ icon nm)).1 = s ∧
    (step s (.deviceInfo id typ icon nm)).2 = []) ∧
  (∀ d, mget s.devices id = some d →
    mget (step s (.deviceInfo id typ icon nm)).1.devices id =
      some { d with type := some typ, icon := some icon, name := some nm } ∧
    (∀ k, k ≠ id → mget (step s (.deviceInfo id typ icon nm)).1.devices k =
      mget s.devices k) ∧
    (step s (.deviceInfo id typ icon nm)).1.ipGroups = s.ipGroups ∧
    (step s (.deviceInfo id typ icon nm)).1.connected = s.connected ∧
    (∀ m dm, mget s.devices m = some dm →
      (step s (.deviceInfo id typ icon nm)).2.count
          (m, OutEvent.deviceInfoUpdate id typ icon nm) =
        if dm.groupKey = d.groupKey then 1 else 0) ∧
    (∀ q ∈ (step s (.deviceInfo id typ icon nm)).2,
      q.2 = OutEvent.deviceInfoUpdate id typ icon nm))

theorem deviceInfo_spec (s : ServerState) (hInv : Inv s) (id typ icon nm : String) :
    DeviceInfoSpec s id typ icon nm := by
  constructor
  · intro hd
    refine ⟨?_, ?_⟩ <;> simp [step, hd]
  · intro d hd
    have hkey : d.groupKey ≠ "" := (inv_dev_wf hInv hd).2.1
    have hstep1 : (step s (.deviceInfo id typ icon nm)).1 =
        ⟨mset s.devices id { d with type := some typ, icon := some icon, name := some nm },
          s.ipGroups, s.connected⟩ := by
      simp [step, hd]
    have hstep2 : (step s (.deviceInfo id typ icon nm)).2 =
        broadcastTo s.connected ((mget s.ipGroups d.groupKey).getD [])
          (OutEvent.deviceInfoUpdate id typ icon nm) := by
      simp [step, hd, if_pos hkey]
    obtain ⟨ms0, hms0, hmem0⟩ := inv_regMem hInv hd
    refine ⟨?_, ?_, ?_, ?_, ?_, ?_⟩
    · rw [hstep1]
      exact mget_mset_self s.devices id _
    · intro k hk
      rw [hstep1]
      exact mget_mset_ne _ _ (fun hc => hk hc.symm)
    · rw [hstep1]
    · rw [hstep1]
    · intro m dm hm
      rw [hstep2, hms0]
      simp only [Option.getD_some]
      rw [count_broadcastTo, if_pos ⟨rfl, (inv_dev_wf hInv hm).2.2⟩]
      by_cases hk : dm.groupKey = d.groupKey
      · rw [if_pos hk]
        obtain ⟨msm, hmsm, hmemm⟩ := inv_regMem hInv hm
        rw [hk, hms0] at hmsm
        injection hmsm with hmsm
        rw [← hmsm] at hmemm
        exact List.count_eq_one_of_mem (inv_group_wf hInv hms0).1 hmemm
      · rw [if_neg hk, List.count_eq_zero]
        intro hc
        obtain ⟨dm', hdm', hk'⟩ := inv_memReg hInv hms0 hc
        rw [hm] at hdm'
        injection hdm' with hdm'
        rw [hdm'] at hk
        exact hk hk'
    · intro q hq
      rw [hstep2] at hq
      exact (mem_broadcastTo hq).2.1

/-! ## Claim theorems -/

/-- C1 (amended): for every direct-relay event sent from any reachable
state, if the target id is registered in the Session Registry then the
exact, unmodified payload — tagged with the corresponding outbound kind
and the sender's id — is delivered to that single connection and to no
other; if the target socket is not connected the relay is a silent
no-op; and in every case the relay delivers either exactly that one
envelope or nothing, with no error to the sender.  The claim's converse
direction — an unregistered target receives nothing — does not hold:
delivery is keyed on socket-room membership, so a sweeper-evicted but
still-open connection still receives the payload. -/
theorem relay_delivery_spec (s : ServerState) (hreach : Reachable s) (e : InEvent)
    (t : String) (out : OutEvent) (hrel : relayOut e = some (t, out)) :
    ((mget s.devices t).isSome = true → (step s e).2 = [(t, out)]) ∧
    (t ∉ s.connected → (step s e).2 = []) ∧
    ((step s e).2 = [(t, out)] ∨ (step s e).2 = []) :=
  relay_exactness s hreach e t out hrel

/-- C1 counterexample: device `b` registers, is evicted by the sweeper
at `t = 30001` (so it is no longer in the registry) while its socket
stays connected; a later `send-message` addressed to `b` is still
delivered, refuting "if the target id is not currently registered the
relay is a silent no-op with zero deliveries". -/
theorem relay_unregistered_delivery_cex :
    mget (run initState [.connect "b" "5.5.5.5" 0, .sweep 30001,
      .connect "a" "5.5.5.5" 30001]).devices "b" = none ∧
    (step (run initState [.connect "b" "5.5.5.5" 0, .sweep 30001,
      .connect "a" "5.5.5.5" 30001]) (.sendMessage "a" "b" "hi")).2 =
      [("b", OutEvent.message "a" "hi")] :=
  ⟨rfl, rfl⟩

theorem relay_delivery_spec_witness :
    (step (run initState [.connect "a" "10.0.0.1" 0, .connect "b" "10.0.0.2" 5])
      (.sendMessage "a" "b" "hi")).2 = [("b", OutEvent.message "a" "hi")] :=
  (relay_delivery_spec
    (run initState [.connect "a" "10.0.0.1" 0, .connect "b" "10.0.0.2" 5])
    ⟨[.connect "a" "10.0.0.1" 0, .connect "b" "10.0.0.2" 5], rfl⟩
    (.sendMessage "a" "b" "hi") "b" (OutEvent.message "a" "hi") rfl).1 (by decide)

/-- C2 (code bug): when a connection arrives under an id that already
has a stale record, the handler discards the record from `devices` but
not from `ipGroups`, so after `x` reconnects from a different network
the id sits in two group sets at once while its record names only the
new group — the registry/index consistency the claim states is violated
at the step boundary. -/
theorem stale_reconnect_violation :
    mget (run initState [.connect "x" "10.0.0.1" 0,
      .connect "x" "8.8.8.8" 0]).ipGroups "LAN-10" = some ["x"] ∧
    mget (run initState [.connect "x" "10.0.0.1" 0,
      .connect "x" "8.8.8.8" 0]).ipGroups "8.8.8" = some ["x"] ∧
    (mget (run initState [.connect "x" "10.0.0.1" 0,
      .connect "x" "8.8.8.8" 0]).devices "x").map DeviceInfo.groupKey = some "8.8.8" ∧
    ¬ Inv (run initState [.connect "x" "10.0.0.1" 0, .connect "x" "8.8.8.8" 0]) :=
  ⟨rfl, rfl, rfl, by decide⟩

/-- C3 (amended): from any consistent state — one reached with
transport-fresh connect ids and nonempty peer addresses — each sweeper
run removes exactly the registered devices with `now - lastSeen >
30000` from both the registry and the group index, keeps the rest
untouched (so a device heartbeating every 20 s, whose lag never exceeds
20000 ≤ 30000, is never evicted), delivers exactly one `device-left`
notice per evicted device to each remaining member of its group and
none to other groups, and the evicted id appears in no roster emitted
by any later registration as long as that id is never re-connected.
The claim as stated fails for a device whose observed address is empty:
its falsy group key skips both the index removal and the leave
notices. -/
theorem sweep_eviction_spec (s : ServerState) (hInv : Inv s) (now : Nat) :
    SweepSpec s now :=
  sweep_spec s hInv now

/-- C3 counterexample: two devices register with an empty observed
address (group key `""`, which is falsy in the handler's guards); the
sweep at `t = 31000` evicts `x` from the registry but leaves it in the
group index and emits zero `device-left` notices to the remaining
member `y`. -/
theorem sweep_empty_group_key_cex :
    mget (run initState [.connect "x" "" 0, .connect "y" "" 1000]).devices "x" =
      some ⟨"x", 0, none, none, none, ""⟩ ∧
    mget (step (run initState [.connect "x" "" 0, .connect "y" "" 1000])
      (.sweep 31000)).1.devices "x" = none ∧
    mget (step (run initState [.connect "x" "" 0, .connect "y" "" 1000])
      (.sweep 31000)).1.ipGroups "" = some ["x", "y"] ∧
    (step (run initState [.connect "x" "" 0, .connect "y" "" 1000])
      (.sweep 31000)).2 = [] ∧
    (mget (step (run initState [.connect "x" "" 0, .connect "y" "" 1000])
      (.sweep 31000)).1.devices "y").map DeviceInfo.groupKey = some "" :=
  ⟨rfl, rfl, rfl, rfl, rfl⟩

theorem sweep_eviction_spec_witness :
    Inv (run initState [.connect "a" "10.0.0.1" 0, .connect "b" "10.0.0.2" 5000]) ∧
    SweepSpec (run initState [.connect "a" "10.0.0.1" 0, .connect "b" "10.0.0.2" 5000])
      31000 :=
  ⟨by decide, sweep_eviction_spec _ (by decide) 31000⟩

/-- C4 (amended): from any consistent state, a `device-info` event from
a registered id sets the record's `type`/`icon`/`name` to the event's
values while keeping `groupKey` and `lastSeen` (and every other record,
the group index and the connected set) unchanged, and delivers the
`device-info-update` notice exactly once to every member of the sender's
group — including the updating connection itself, which the claim's
"and not to the updating connection itself" wrongly excludes — and to
no one else; from an unregistered id the event is a complete no-op with
zero deliveries. -/
theorem profile_update_spec (s : ServerState) (hInv : Inv s) (id typ icon nm : String) :
    DeviceInfoSpec s id typ icon nm :=
  deviceInfo_spec s hInv id typ icon nm

/-- C4 counterexample: with `a` and `b` registered in the same group,
`a`'s profile update is delivered to `a` itself (once), refuting "not
to the updating connection itself". -/
theorem profile_update_self_delivery_cex :
    (step (run initState [.connect "a" "10.0.0.1" 0, .connect "b" "10.0.0.2" 0])
        (.deviceInfo "a" "phone" "ic" "nm")).2.count
      ("a", OutEvent.deviceInfoUpdate "a" "phone" "ic" "nm") = 1 :=
  rfl

theorem profile_update_spec_witness :
    Inv (run initState [.connect "a" "10.0.0.1" 0, .connect "b" "10.0.0.2" 0]) ∧
    DeviceInfoSpec (run initState [.connect "a" "10.0.0.1" 0, .connect "b" "10.0.0.2" 0])
      "a" "t" "i" "n" :=
  ⟨by decide, profile_update_spec _ (by decide) "a" "t" "i" "n"⟩

/-- C5 (amended): from any consistent state, and for any event whose
connect ids are transport-fresh, every `device-joined` or `device-left`
notice about a registered device and every roster record is delivered
only to connections registered under the same group key — so a device
registered under group A never appears in the roster or join/leave
broadcasts delivered to a device registered under group B.  The claim
over all reachable states fails: a stale-id reconnect (claim C2's bug)
leaves the old group polluted, after which a cross-group record shows
up in a discovery roster. -/
theorem group_isolation_spec (s : ServerState) (hInv : Inv s) (e : InEvent)
    (hfresh : ∀ id addr n, e = .connect id addr n → id ∉ s.connected) :
    IsolationStep s e :=
  group_isolation s hInv e hfresh

/-- C5 counterexample: after `x` reconnects under the same id from a
different network, registering `y` in `x`'s old group delivers `y` a
roster containing `x`'s record, although `x` is registered under group
`"8.8.8"` and `y` under `"LAN-10"`. -/
theorem cross_group_roster_cex :
    (step (run initState [.connect "x" "10.0.0.1" 0, .connect "x" "8.8.8.8" 0])
        (.connect "y" "10.0.0.2" 0)).2 =
      [("y", OutEvent.deviceInfoRoster "y" [⟨"x", 0, none, none, none, "8.8.8"⟩]),
       ("x", OutEvent.deviceJoined "y")] ∧
    (mget (step (run initState [.connect "x" "10.0.0.1" 0, .connect "x" "8.8.8.8" 0])
        (.connect "y" "10.0.0.2" 0)).1.devices "y").map DeviceInfo.groupKey =
      some "LAN-10" ∧
    (mget (step (run initState [.connect "x" "10.0.0.1" 0, .connect "x" "8.8.8.8" 0])
        (.connect "y" "10.0.0.2" 0)).1.devices "x").map DeviceInfo.groupKey =
      some "8.8.8" :=
  ⟨rfl, rfl, rfl⟩

theorem group_isolation_spec_witness :
    Inv (run initState [.connect "a" "10.0.0.1" 0, .connect "b" "10.0.0.2" 0]) ∧
    IsolationStep (run initState [.connect "a" "10.0.0.1" 0, .connect "b" "10.0.0.2" 0])
      (.connect "c" "10.0.0.3" 7) :=
  ⟨by decide, group_isolation_spec _ (by decide) _ (by
    intro id addr n he
    injection he with h1 h2 h3
    rw [← h1]
    decide)⟩

theorem disconnect_absent_emits (s : ServerState) (id : String)
    (h : mget s.devices id = none) : (step s (.disconnect id)).2 = [] := by
  simp [step, h]

/-- C6: a disconnect for an id that is no longer registered leaves the
registry and the group index unchanged and produces zero `device-left`
broadcasts (the handler's registry lookup fails, so only the socket
leaves the connected set; `Map.delete` on the absent key is a no-op);
consequently a second disconnect of the same id — as in a race with the
sweeper — emits nothing. -/
theorem disconnect_absent_noop (s : ServerState) (id : String)
    (h : mget s.devices id = none) :
    (step s (.disconnect id)).1.devices = s.devices ∧
    (step s (.disconnect id)).1.ipGroups = s.ipGroups ∧
    (step s (.disconnect id)).2 = [] ∧
    (∀ s' : ServerState, (step (step s' (.disconnect id)).1 (.disconnect id)).2 = []) := by
  refine ⟨?_, ?_, ?_, ?_⟩
  · simp only [step, h]
    exact mdel_of_mget_none h
  · simp only [step, h]
  · simp only [step, h]
  · intro s'
    refine disconnect_absent_emits _ id ?_
    rw [disconnect_devices]
    exact mget_mdel_self _ _

theorem disconnect_absent_noop_witness :
    (step initState (.disconnect "z")).1.devices = initState.devices ∧
    (step initState (.disconnect "z")).1.ipGroups = initState.ipGroups ∧
    (step initState (.disconnect "z")).2 = [] ∧
    (∀ s' : ServerState, (step (step s' (.disconnect "z")).1 (.disconnect "z")).2 = []) :=
  disconnect_absent_noop initState "z" rfl

/-- C7: the classifier gives one fixed tag per RFC1918 block — every
address matching `^10\.` maps to `LAN-10`, every address matching
`^192\.168\.` maps to `LAN-192.168`, every address matching
`^172\.(1[6-9]|2[0-9]|3[0-1])\.` maps to `LAN-172` — and every
non-private address maps to its first three dot-separated components;
in particular the three concrete identities of the claim hold. -/
theorem classifier_block_tags :
    getNetworkGroup "192.168.1.5" = getNetworkGroup "192.168.50.9" ∧
    getNetworkGroup "10.0.0.1" = getNetworkGroup "10.255.255.254" ∧
    getNetworkGroup "8.8.8.8" ≠ getNetworkGroup "8.8.4.4" ∧
    (∀ s, strHasPre "10." s = true → getNetworkGroup s = "LAN-10") ∧
    (∀ s, strHasPre "192.168." s = true → getNetworkGroup s = "LAN-192.168") ∧
    (∀ s, is172Private s = true → getNetworkGroup s = "LAN-172") ∧
    (∀ s, isPrivateIP s = false → getNetworkGroup s = jsJoin '.' ((jsSplit '.' s).take 3)) :=
  ⟨by decide, by decide, by decide, fun _ h => group_of_10 h, fun _ h => group_of_192168 h,
    fun _ h => group_of_172 h, fun _ h => group_public h⟩

theorem classifier_block_tags_witness :
    getNetworkGroup "10.200.3.4" = "LAN-10" ∧ getNetworkGroup "172.31.9.9" = "LAN-172" :=
  ⟨classifier_block_tags.2.2.2.1 "10.200.3.4" (by decide),
    classifier_block_tags.2.2.2.2.2.1 "172.31.9.9" (by decide)⟩

/-- C8: the classifier is a total, pure, deterministic function on
arbitrary strings: every input — malformed or not — yields some group
key (the embedding is a total function, so no error can be raised), and
equal inputs yield equal keys. -/
theorem classifier_total_deterministic (ip ip2 : String) (h : ip2 = ip) :
    ∃ k : String, getNetworkGroup ip = k ∧ getNetworkGroup ip2 = k :=
  ⟨getNetworkGroup ip, rfl, by rw [h]⟩

theorem classifier_total_deterministic_witness :
    ∃ k : String, getNetworkGroup "definitely not an address" = k ∧
      getNetworkGroup "definitely not an address" = k :=
  classifier_total_deterministic "definitely not an address" "definitely not an address" rfl

/-- C9: every direct-relay handler leaves the whole server state —
registry, group index and connected set — unchanged; hence any sequence
of relay events is a state no-op, and in particular `lastSeen` is never
refreshed by relaying, so in a consistent state a device that has been
silent apart from relays for more than 30 s is still evicted by the
next sweep. -/
theorem relay_frame_spec :
    (∀ (s : ServerState) (e : InEvent), isRelayEv e = true → (step s e).1 = s) ∧
    (∀ (s : ServerState) (evs : List InEvent), (∀ e ∈ evs, isRelayEv e = true) →
      run s evs = s) ∧
    (∀ (s : ServerState) (now : Nat) (k : String) (d : DeviceInfo), Inv s →
      mget s.devices k = some d → 30000 < now - d.lastSeen →
      mget (step s (.sweep now)).1.devices k = none) :=
  ⟨fun _ _ h => relay_fst h,
    fun s evs h => run_relay_frame s evs h,
    fun s now k d hInv hk hs => ((sweep_spec s hInv now).2.1 k d hk hs).1⟩

theorem relay_frame_spec_witness :
    run (run initState [.connect "a" "10.0.0.1" 0])
      [.sendMessage "a" "a" "m", .signal "a" "a" "sig", .fileData "a" "a" [1, 2] "f" "t" 0 2] =
    run initState [.connect "a" "10.0.0.1" 0] :=
  relay_frame_spec.2.1 _ _ (by decide)

/-- C10: for every non-private address string the group key is the join
of the first `min(3, n)` dot-separated components; an address that
splits into at most three components (fewer than three dots) is its own
group key, so two such peers share a group exactly when their full
address strings are equal. -/
theorem public_group_key_spec (s : String) (h : isPrivateIP s = false) :
    getNetworkGroup s = jsJoin '.' ((jsSplit '.' s).take 3) ∧
    ((jsSplit '.' s).length ≤ 3 → getNetworkGroup s = s) ∧
    (∀ t, isPrivateIP t = false → (jsSplit '.' t).length ≤ 3 →
      (jsSplit '.' s).length ≤ 3 → (getNetworkGroup s = getNetworkGroup t ↔ s = t)) := by
  refine ⟨group_public h, fun hl => group_public_short h hl, ?_⟩
  intro t ht hlt hls
  rw [group_public_short h hls, group_public_short ht hlt]

theorem public_group_key_spec_witness :
    getNetworkGroup "fe80::1" = jsJoin '.' ((jsSplit '.' "fe80::1").take 3) ∧
    ((jsSplit '.' "fe80::1").length ≤ 3 → getNetworkGroup "fe80::1" = "fe80::1") ∧
    (∀ t, isPrivateIP t = false → (jsSplit '.' t).length ≤ 3 →
      (jsSplit '.' "fe80::1").length ≤ 3 →
      (getNetworkGroup "fe80::1" = getNetworkGroup t ↔ "fe80::1" = t)) :=
  public_group_key_spec "fe80::1" (by decide)

end AnyDrop
